import Mathlib

/-!
Verification of the LongevityPath evidence registry (`registry.py`) against its
natural-language specification.  The registry is a JSON-backed store of studies,
claims, study-claim links and evidence-usage records, together with a synthesis
engine (per-claim net direction / confidence / gaps), a staleness report, a
supersession operation, a DOI validator with fuzzy title matching, and markdown /
evidence-page importers.

The Python code operates on dictionaries; we embed the records as structures
whose fields are exactly the keys the various creation paths write.  Keys that
some paths omit are `Option`-valued (`none` = key absent).  Numeric scores are
embedded as rationals (`ℚ`): every score the program manipulates is a small
decimal, and Python's float arithmetic on the expressions that occur here
(`q * r`, `f * 2 * 0.5`) is exact, so `ℚ` is a faithful model.
-/

namespace Registry

/-! #### Executable lexicographic string comparison

Python compares strings lexicographically by code point.  Lean's `String`
order has the same semantics, but its `Decidable` instances do not reduce in
the kernel, so concrete fixtures could not be settled by `decide`.  We use an
executable comparison on the underlying character lists and prove it agrees
with the standard order. -/
/-- Lexicographic strict comparison of character lists (code-point order,
proper prefixes sort first) — the comparison Python's `<` performs. -/
def charListLt : List Char → List Char → Bool
  | [], [] => false
  | [], _ :: _ => true
  | _ :: _, [] => false
  | a :: as, b :: bs => if a < b then true else if b < a then false else charListLt as bs

/-- `a < b` on strings, executable. -/
def strLt (a b : String) : Bool := charListLt a.data b.data

/-- `a <= b` on strings, executable (total order: `a ≤ b ↔ ¬ b < a`). -/
def strLe (a b : String) : Bool := !strLt b a

/-- A study record.  Fields mirror the dict keys written by `cmd_import_md`,
`cmd_add` and `cmd_import_refs`; paths that do not write a key leave it `none`.
(`cmd_import_refs` writes `relevance` rather than `relevance_mult`, and
`is_landmark` rather than `landmark` — both variants are kept.) -/
structure Study where
  study_id : String
  authors : String := ""
  authors_short : Option String := none
  pub_year : Int := 0
  doi : Option String := none
  url : Option String := none
  title : Option String := none
  study_type : String := ""
  sample_size : Option String := none
  quality_score : ℚ := 0
  relevance_mult : Option ℚ := none
  relevance : Option ℚ := none
  final_score : ℚ := 0
  landmark : Option Bool := none
  is_landmark : Option Bool := none
  direction : String := ""
  population : String := "all"
  key_finding : Option String := none
  verified_date : Option String := none
  added_date : Option String := none
  status : Option String := none
  superseded_by : Option String := none
  notes : Option String := none
  deriving DecidableEq, Repr

/-- A claim record (`{'claim_id', 'exposure', 'outcome', 'description'}`). -/
structure ClaimRec where
  claim_id : String
  exposure : String := ""
  outcome : String := ""
  description : String := ""
  deriving DecidableEq, Repr

/-- A study↔claim link.  `direction` is `none` when the dict has no
`'direction'` key (the only shape `registry.py` itself creates). -/
structure StudyClaimLink where
  study_id : String
  claim_id : String
  direction : Option String := none
  deriving DecidableEq, Repr

/-- An evidence-usage record. -/
structure EvidenceUsage where
  id : String
  study_id : String
  page_file : String
  card_id : String
  role : String
  deriving DecidableEq, Repr

/-- The document store held in `studies.json`. -/
structure Db where
  studies : List Study := []
  claims : List ClaimRec := []
  study_claims : List StudyClaimLink := []
  evidence_usage : List EvidenceUsage := []
  deriving DecidableEq, Repr

/-- The entry of the dict comprehension
`{lk['study_id']: lk.get('direction', '') for lk in db['study_claims'] if lk['claim_id'] == claim_id}`
for key `sid`: the *last* link with this claim and study wins, exactly as later
dict entries overwrite earlier ones. -/
def lastLinkFor (links : List StudyClaimLink) (claim_id sid : String) :
    Option StudyClaimLink :=
  (links.filter (fun lk => lk.claim_id == claim_id && lk.study_id == sid)).getLast?

/-- Ordering for `results.sort(key=lambda s: s.get('final_score', 0), reverse=True)`:
descending by `final_score`. -/
def scoreDesc (a b : Study) : Prop := b.final_score ≤ a.final_score

instance : DecidableRel scoreDesc := fun a b => inferInstanceAs (Decidable (_ ≤ _))

/-- The stable descending sort performed by
`results.sort(key=lambda s: s.get('final_score', 0), reverse=True)`.
A stable sort's output is uniquely determined by the (total) comparator, so the
structurally-recursive insertion sort used here produces the same list as
Python's stable sort. -/
def sortScoreDesc (l : List Study) : List Study := l.insertionSort scoreDesc

/-- `find_studies_for_claim(db, claim_id, direction=None)`.  Returns the studies
linked to the claim, each a copy whose `direction` field is overwritten with the
link's direction (`lk.get('direction', '')`), optionally filtered by the
`direction` argument (Python truthiness: `None` and `''` disable the filter),
sorted by `final_score` descending. -/
def find_studies_for_claim (db : Db) (claim_id : String)
    (direction : Option String) : List Study :=
  let results := db.studies.filterMap (fun s =>
    (lastLinkFor db.study_claims claim_id s.study_id).map
      (fun lk => { s with direction := lk.direction.getD "" }))
  let results := match direction with
    | none => results
    | some d => if d = "" then results else results.filter (fun s => s.direction == d)
  sortScoreDesc results

/-! ### C1 — direction annotation in `find_studies_for_claim` -/
/-- Fixture for C1: a study whose own `direction` is `"+"`, linked to claim
`"c"` by a link that carries no direction of its own. -/
def c1Study : Study := { study_id := "s1", authors := "A", direction := "+", final_score := 10 }

/-- Fixture database for C1. -/
def c1Db : Db :=
  { studies := [c1Study], study_claims := [{ study_id := "s1", claim_id := "c" }] }

/-! ### Claim synthesis engine (`build_summary_data`) -/
/-- `sorted({c['claim_id'] for c in db['claims']})`: the distinct claim ids in
ascending lexicographic order. -/
def sortedClaimIds (db : Db) : List String :=
  ((db.claims.map (fun c => c.claim_id)).dedup).insertionSort (fun a b => strLe a b = true)

/-- `plus[0]['final_score']` when the partition is non-empty, else the `0`
default the contested branch substitutes (`plus[0]['final_score'] if plus else 0`). -/
def topScore : List Study → ℚ
  | [] => 0
  | s :: _ => s.final_score

/-- Python's `f"{x:.0f}"` rounding: round half to even (banker's rounding).
`n = ⌊q⌋` (floor division of numerator by denominator), `r = q.num - n*q.den`
the remainder, and the fractional part `r/den` is compared with `1/2` by
comparing `2r` with `den`.  Spelled out on integers so that the kernel can
evaluate it on concrete fixtures. -/
def rndHalfEven (q : ℚ) : ℤ :=
  let n := Int.fdiv q.num q.den
  let r := q.num - n * (q.den : ℤ)
  if 2 * r < (q.den : ℤ) then n
  else if (q.den : ℤ) < 2 * r then n + 1
  else if n % 2 = 0 then n else n + 1

/-- `f"{s['authors']} {s['pub_year']} ({s['final_score']:.0f})"`. -/
def bestStr (s : Study) : String :=
  s.authors ++ " " ++ toString s.pub_year ++ " (" ++ toString (rndHalfEven s.final_score) ++ ")"

/-- One row of the Claim Summary Index. -/
structure SummaryEntry where
  claim : String
  n_plus : Nat
  n_minus : Nat
  n_mixed : Nat
  best_plus : String
  best_minus : String
  net : String
  confidence : String
  gap : String
  deriving DecidableEq, Repr

/-- The code's net-direction `if/elif/else` chain over the three partitions
(list truthiness is emptiness; `bp >= bm` contested comparison). -/
def netCode (plus minus mixed : List Study) : String :=
  if !plus.isEmpty && minus.isEmpty && mixed.isEmpty then "+"
  else if !minus.isEmpty && plus.isEmpty then "−"
  else if !mixed.isEmpty && plus.isEmpty && minus.isEmpty then "±"
  else if topScore minus ≤ topScore plus then "+ (contested)"
  else "− (contested)"

/-- `max(s.get('final_score', 0) for s in studies)` over a non-empty
`s0 :: rest`. -/
def topOverall (s0 : Study) (rest : List Study) : ℚ :=
  rest.foldl (fun m x => max m x.final_score) s0.final_score

/-- The summary row `build_summary_data` assembles for a claim whose (sorted,
annotated) linked studies are the non-empty list `s0 :: rest`. -/
def summary_core (cid : String) (s0 : Study) (rest : List Study) : SummaryEntry :=
  let studies := s0 :: rest
  let plus := studies.filter (fun s => s.direction == "+")
  let minus := studies.filter (fun s => s.direction == "−")
  let mixed := studies.filter (fun s => s.direction == "±")
  let best_plus := match plus with | [] => "—" | p :: _ => bestStr p
  let best_minus := match minus with | [] => "—" | m :: _ => bestStr m
  let top := topOverall s0 rest
  let confidence := if 12 ≤ top then "Strong" else if 10 ≤ top then "Moderate" else "Limited"
  let gap :=
    if minus.isEmpty && mixed.isEmpty && !plus.isEmpty then "Need contradicting study"
    else if !minus.isEmpty && plus.isEmpty then "Need supporting study"
    else ""
  { claim := cid, n_plus := plus.length, n_minus := minus.length,
    n_mixed := mixed.length, best_plus := best_plus, best_minus := best_minus,
    net := netCode plus minus mixed, confidence := confidence, gap := gap }

/-- The body of the `for cid in claim_ids` loop of `build_summary_data`:
`none` models the `continue` on claims with no linked studies. -/
def summary_for (db : Db) (cid : String) : Option SummaryEntry :=
  match find_studies_for_claim db cid none with
  | [] => none
  | s0 :: rest => some (summary_core cid s0 rest)

/-- `build_summary_data(db)`. -/
def build_summary_data (db : Db) : List SummaryEntry :=
  (sortedClaimIds db).filterMap (summary_for db)

/-! ### C2 — net-direction resolution -/
/-- The net-direction rule as the specification words it: the three pure cases
in priority order, otherwise contested with the strictly-higher top score
winning and an exact tie defaulting to the `+` side. -/
def netSpec (plus minus mixed : List Study) : String :=
  if plus ≠ [] ∧ minus = [] ∧ mixed = [] then "+"
  else if minus ≠ [] ∧ plus = [] then "−"
  else if mixed ≠ [] ∧ plus = [] ∧ minus = [] then "±"
  else if topScore minus < topScore plus then "+ (contested)"
  else if topScore plus < topScore minus then "− (contested)"
  else "+ (contested)"

instance : IsTrans Study scoreDesc :=
  ⟨fun _ _ _ hab hbc => le_trans hbc hab⟩

instance : IsTotal Study scoreDesc :=
  ⟨fun a b => (le_total b.final_score a.final_score).imp id id⟩

/-- Fixture study A of the spec's net-direction table. -/
def c2A : Study :=
  { study_id := "A", authors := "A", pub_year := 2020, quality_score := 12,
    relevance_mult := some 1, final_score := 12, direction := "+" }

/-- Fixture study B of the spec's net-direction table. -/
def c2B : Study :=
  { study_id := "B", authors := "B", pub_year := 2021, quality_score := 9,
    relevance_mult := some 1, final_score := 9, direction := "−" }

/-- Fixture database: claim `X→Y` with `A(final=12, dir=+)`, `B(final=9, dir=−)`. -/
def c2Db : Db :=
  { studies := [c2A, c2B],
    claims := [{ claim_id := "X→Y", exposure := "X", outcome := "Y" }],
    study_claims := [{ study_id := "A", claim_id := "X→Y", direction := some "+" },
                     { study_id := "B", claim_id := "X→Y", direction := some "−" }] }

/-! ### Supersession (`cmd_supersede`) -/
deriving instance DecidableEq for Except

/-- The two failure messages of `cmd_supersede` (each `sys.exit(1)`s before any
`save_db`, so the stored snapshot is untouched on failure). -/
inductive SupersedeErr where
  | oldNotFound
  | newNotFound
  deriving DecidableEq, Repr

/-- `cmd_supersede` mutates the first dict with the old id in place
(`next(s for s in db['studies'] if ...)`); modeled by rebuilding the list with
the first match updated. -/
def updateFirstStudy (studies : List Study) (old_id new_id : String) : List Study :=
  match studies with
  | [] => []
  | s :: rest =>
    if s.study_id == old_id then
      { s with status := some "superseded", superseded_by := some new_id } :: rest
    else s :: updateFirstStudy rest old_id new_id

/-- `cmd_supersede(db, old_id, new_id)`: fails (exit 1, nothing saved) when
either id has no study; otherwise sets the old study's `status` to
`"superseded"` and its `superseded_by` to the new id and saves.  The code never
compares `old_id` with `new_id`. -/
def cmd_supersede (db : Db) (old_id new_id : String) : Except SupersedeErr Db :=
  match db.studies.find? (fun s => s.study_id == old_id) with
  | none => .error .oldNotFound
  | some _ =>
    match db.studies.find? (fun s => s.study_id == new_id) with
    | none => .error .newNotFound
    | some _ => .ok { db with studies := updateFirstStudy db.studies old_id new_id }

/-- Fixture study for C3. -/
def c3A : Study := { study_id := "A", authors := "X" }

/-- Fixture database for C3: a single study `A`. -/
def c3Db : Db := { studies := [c3A] }

/-- Second fixture study for C3's witness. -/
def c3B : Study := { study_id := "B", authors := "Y" }

/-- Fixture database with two distinct studies. -/
def c3Db2 : Db := { studies := [c3A, c3B] }

/-! ### Staleness report (`cmd_stale`) -/
/-- The filter `not s.get('verified_date') or s['verified_date'] < cutoff`:
a study is listed when its `verified_date` is absent, empty (Python falsiness),
or lexicographically below the cutoff string. -/
def isStale (cutoff : String) (s : Study) : Bool :=
  match s.verified_date with
  | none => true
  | some v => if v = "" then true else strLt v cutoff

/-- `s.get('verified_date') or ''`, the ascending sort key of the report. -/
def staleKey (s : Study) : String := s.verified_date.getD ""

/-- `cmd_stale`, parameterized by the already-computed cutoff string
`(datetime.now() - timedelta(days=180)).strftime('%Y-%m')` (the real-time date
computation is outside the model; the classification given the month-truncated
cutoff is what is embedded). -/
def cmd_stale (db : Db) (cutoff : String) : List Study :=
  (db.studies.filter (isStale cutoff)).insertionSort
    (fun a b => strLe (staleKey a) (staleKey b) = true)

/-- Fixture study for C5, verified exactly at the cutoff month. -/
def c5S : Study := { study_id := "s", verified_date := some "2025-04" }

/-- Fixture database for C5. -/
def c5Db : Db := { studies := [c5S] }

/-! ### Executable Python string primitives

Core `String.trim`, `String.splitOn`, `String.toUpper` … do not reduce in the
kernel (byte-position machinery), so the Python string operations the registry
uses are implemented on character lists. -/
/-- Python's default `str.strip()` whitespace. -/
def pyWs (c : Char) : Bool :=
  c == ' ' || c == '\t' || c == '\n' || c == '\r' || c == '\x0b' || c == '\x0c'

/-- `str.strip()` on a character list. -/
def pyStripL (cs : List Char) : List Char :=
  ((cs.dropWhile pyWs).reverse.dropWhile pyWs).reverse

/-- Python `s.strip()`. -/
def pyStrip (s : String) : String := String.mk (pyStripL s.data)

/-- Python `s.strip(ch)` for a single strip character. -/
def pyStripChar (ch : Char) (s : String) : String :=
  String.mk (((s.data.dropWhile (· == ch)).reverse.dropWhile (· == ch)).reverse)

/-- Helper for `pySplit`: accumulates the current field (reversed). -/
def splitOnCharAux (sep : Char) : List Char → List Char → List (List Char)
  | [], acc => [acc.reverse]
  | c :: rest, acc =>
    if c == sep then acc.reverse :: splitOnCharAux sep rest []
    else splitOnCharAux sep rest (c :: acc)

/-- Python `s.split(sep)` for a single-character separator (every separator the
registry splits on — `'|'`, `','`, `' '`, `'&'`, `'→'` — is one code point). -/
def pySplit (sep : Char) (s : String) : List String :=
  (splitOnCharAux sep s.data []).map String.mk

/-- Is `as` a prefix of `bs`? -/
def listIsPrefixOf : List Char → List Char → Bool
  | [], _ => true
  | _ :: _, [] => false
  | a :: as, b :: bs => a == b && listIsPrefixOf as bs

/-- Substring containment: Python's `needle in hay`. -/
def listContainsSeg (needle : List Char) : List Char → Bool
  | [] => needle.isEmpty
  | h :: rest => listIsPrefixOf needle (h :: rest) || listContainsSeg needle rest

/-- Python `s.startswith(p)`. -/
def strStartsWith (s p : String) : Bool := listIsPrefixOf p.data s.data

/-- Python `needle in hay`. -/
def strContains (hay needle : String) : Bool := listContainsSeg needle.data hay.data

/-- Python `s.upper()`. -/
def strUpper (s : String) : String := String.mk (s.data.map Char.toUpper)

/-- `sep.join`, list level. -/
def intercalateChar (sep : Char) : List (List Char) → List Char
  | [] => []
  | [x] => x
  | x :: rest => x ++ sep :: intercalateChar sep rest

/-- Python `tag.split('→', 1)`: the part before the first `'→'` and everything
after it. -/
def splitArrow (tag : String) : String × String :=
  match pySplit '→' tag with
  | [] => (tag, "")
  | [x] => (x, "")
  | x :: rest => (x, String.mk (intercalateChar '→' (rest.map String.data)))

/-! ### C9 — exit statuses of `cmd_query` / `cmd_export_refs` / `cmd_supersede` -/
/-- Which branch of `cmd_query`'s printing ran. -/
inductive QueryOutcome where
  | suggestions (fuzzy : List String)
  | noMatch
  | listing (results : List Study)
  deriving DecidableEq, Repr

/-- `cmd_query`; the second component is the process exit status.  Every
branch — including the claim-has-no-studies branch, which prints a message (or
fuzzy suggestions) and `return`s — finishes with exit status 0: `cmd_query`
contains no `sys.exit` call. -/
def cmd_query (db : Db) (claim : String) (dir : Option String) : QueryOutcome × Nat :=
  match find_studies_for_claim db claim dir with
  | [] =>
    let fuzzy := (db.claims.filter (fun c => strContains c.claim_id claim)).map
      (fun c => c.claim_id)
    if !fuzzy.isEmpty then (.suggestions fuzzy, 0) else (.noMatch, 0)
  | s :: rest => (.listing (s :: rest), 0)

/-- The rows `cmd_export_refs` assembles: for `"all"`, studies of every claim id
occurring in the links in sorted order; otherwise the claim's studies, each
tagged with the claim id. -/
def export_refs_rows (db : Db) (claim : String) : List (Study × String) :=
  if claim = "all" then
    ((((db.study_claims.map (fun lk => lk.claim_id)).dedup).insertionSort
        (fun a b => strLe a b = true)).map
      (fun cid => (find_studies_for_claim db cid none).map (fun s => (s, cid)))).flatten
  else (find_studies_for_claim db claim none).map (fun s => (s, claim))

/-- `cmd_export_refs` exit status: `sys.exit(1)` when no rows were found. -/
def cmd_export_refs_exit (db : Db) (claim : String) : Nat :=
  if (export_refs_rows db claim).isEmpty then 1 else 0

/-- `cmd_supersede` exit status: `sys.exit(1)` on either `NotFound`. -/
def cmd_supersede_exit (db : Db) (old_id new_id : String) : Nat :=
  match cmd_supersede db old_id new_id with
  | .error _ => 1
  | .ok _ => 0

/-- Fixture for C9: one claim, no links. -/
def c9Db : Db := { claims := [{ claim_id := "a→b", exposure := "a", outcome := "b" }] }

/-- Second fixture for C9's witness: two studies for the supersede exit code. -/
def c9Db2 : Db := { studies := [{ study_id := "A" }, { study_id := "B" }] }

/-! ### C8 — fuzzy title matching in `validate_doi`

The network resolution itself is outside the model; what is embedded is the
title comparison the code performs once a DOI has resolved (`validate_doi`,
title-comparison block), as a function of the expected and resolved titles. -/
/-- `c` survives `re.sub(r'[^a-z0-9]', '', ·)` after lowercasing. -/
def isAsciiAlnumLower (c : Char) : Bool :=
  ('a' ≤ c && c ≤ 'z') || ('0' ≤ c && c ≤ '9')

/-- Lowercase and strip non-alphanumerics — the normalization *without* the
code's 60-character truncation (as the spec describes it). -/
def normTitleFull (t : String) : List Char :=
  (t.data.map Char.toLower).filter isAsciiAlnumLower

/-- The code's `normalize`: lowercase, strip non-alphanumerics, then keep only
the first 60 characters (`[:60]`). -/
def normalize60 (t : String) : List Char := (normTitleFull t).take 60

/-- The title comparison of `validate_doi` given the resolved title: `none`
when no (non-empty) expected title was supplied, otherwise prefix-40 equality
or mutual containment of the *60-truncated* normalizations. -/
def title_match_code (expected : Option String) (resolved : String) : Option Bool :=
  match expected with
  | none => none
  | some e =>
    if e = "" then none
    else
      some (((normalize60 e).take 40 == (normalize60 resolved).take 40) ||
        listContainsSeg (normalize60 e) (normalize60 resolved) ||
        listContainsSeg (normalize60 resolved) (normalize60 e))

/-- The claim's matching rule: prefix-40 equality or containment over the
*full* normalized titles (no truncation). -/
def title_match_claim (e r : String) : Bool :=
  ((normTitleFull e).take 40 == (normTitleFull r).take 40) ||
  listContainsSeg (normTitleFull e) (normTitleFull r) ||
  listContainsSeg (normTitleFull r) (normTitleFull e)

/-- The amended matching rule: identical, but containment is compared on the
normalizations truncated to their first 60 characters. -/
def title_match_amended (e r : String) : Bool :=
  ((normalize60 e).take 40 == (normalize60 r).take 40) ||
  listContainsSeg (normalize60 e) (normalize60 r) ||
  listContainsSeg (normalize60 r) (normalize60 e)

/-- C8 counterexample expected title: 30 `x`s followed by 40 `y`s. -/
def c8E : String := String.mk (List.replicate 30 'x' ++ List.replicate 40 'y')

/-- C8 counterexample resolved title: 40 `y`s. -/
def c8R : String := String.mk (List.replicate 40 'y')

/-- The spec's round-trip fixture, expected side. -/
def c8Expected : String := "Protein Intake And Mortality Risk: A Cohort Study"

/-- The spec's round-trip fixture, resolved side. -/
def c8Resolved : String := "Protein intake and mortality risk"

/-! ### `cmd_add` (interactive add, DOI-gated) -/
/-- Kernel-evaluable multiplication on `ℚ` (the library `Rat.mul` does not
reduce in the kernel); `qMul_eq` identifies it with `*`. -/
def qMul (a b : ℚ) : ℚ := mkRat (a.num * b.num) (a.den * b.den)

/-- The values the operator types into `cmd_add`'s prompts, post the `int`/
`float` conversions and `.strip() or None` defaults the code applies to the
raw input strings. -/
structure AddInput where
  authors : String
  pub_year : Int
  doi : Option String
  title : Option String
  study_type : String
  sample_size : Option String
  quality_score : ℚ
  relevance_mult : ℚ
  landmark : Bool
  direction : String
  population : String
  key_finding : Option String
  claims_raw : String
  deriving DecidableEq, Repr

/-- How `cmd_add` terminates early: `sys.exit(1)` on an invalid DOI,
`sys.exit(0)` when the operator declines a title mismatch. -/
inductive AddExit where
  | invalidDoi
  | mismatchDeclined
  deriving DecidableEq, Repr

/-- Result dict of `validate_doi`. -/
structure DoiValidation where
  valid : Bool
  title_match : Option Bool
  resolved_title : String
  resolved_authors : String := ""
  err : Option String := none
  deriving DecidableEq, Repr

/-- `validate_doi` with the network exchange abstracted: `resolution` is
`some t` when the resolver returned a paper with title `t`, `none` on any
failure (404 / HTTP error / network error — all produce `valid=False` and an
error message). -/
def validate_doi_core (resolution : Option String)
    (expected_title : Option String) : DoiValidation :=
  match resolution with
  | none => { valid := false, title_match := none, resolved_title := "",
              err := some "resolver failure" }
  | some rt => { valid := true, title_match := title_match_code expected_title rt,
                 resolved_title := rt }

/-- `[c.strip() for c in claims_raw.split(',') if '→' in c]`. -/
def parse_claim_tags_add (claims_raw : String) : List String :=
  ((pySplit ',' claims_raw).filter (fun c => strContains c "→")).map pyStrip

/-- Letters kept by `re.sub(r'[^a-zA-Z]', '', author)`. -/
def isAsciiAlpha (c : Char) : Bool :=
  ('a' ≤ c && c ≤ 'z') || ('A' ≤ c && c ≤ 'Z')

/-- `make_study_id(authors, year)`; the random `uid()[:4]` suffix is the
`nonce` parameter. -/
def make_study_id (authors : String) (year : Int) (nonce : String) : String :=
  let author := pyStrip (pyStripChar '*' (pyStrip authors))
  let author := (pySplit ' ' author).headD ""
  let author := (pySplit '&' author).headD ""
  let author := pyStrip author
  let author := String.mk ((author.data.filter isAsciiAlpha).map Char.toLower)
  author ++ "-" ++ toString year ++ "-" ++ nonce

/-- The claim record created for an unknown tag:
`{'claim_id': tag, 'exposure': parts[0], 'outcome': parts[1], 'description': desc}`. -/
def mkClaimRec (tag : String) (desc : String) : ClaimRec :=
  { claim_id := tag, exposure := (splitArrow tag).1, outcome := (splitArrow tag).2,
    description := desc }

/-- The claim/link bookkeeping of `cmd_add`: for each tag create the claim if
its id is unknown, then append a `{study_id, claim_id}` link unconditionally. -/
def addClaimsLinks (sid : String) (tags : List String) (db : Db) : Db :=
  tags.foldl (fun acc tag =>
    let acc :=
      if acc.claims.any (fun c => c.claim_id == tag) then acc
      else { acc with claims := acc.claims ++ [mkClaimRec tag ""] }
    { acc with study_claims := acc.study_claims ++ [{ study_id := sid, claim_id := tag }] }) db

/-- The study dict `cmd_add` appends: `final = quality * relevance` by
construction (`final = quality * relevance` on the line above the append). -/
def addStudyRec (inp : AddInput) (title : Option String) (nowMonth nonce : String) : Study :=
  { study_id := make_study_id inp.authors inp.pub_year nonce,
    authors := inp.authors, pub_year := inp.pub_year,
    doi := inp.doi, title := title, study_type := inp.study_type,
    sample_size := inp.sample_size, quality_score := inp.quality_score,
    relevance_mult := some inp.relevance_mult,
    final_score := qMul inp.quality_score inp.relevance_mult,
    landmark := some inp.landmark, direction := inp.direction,
    population := inp.population, key_finding := inp.key_finding,
    verified_date := some nowMonth, notes := none }

/-- `cmd_add`: the DOI gate (validity check, mismatch confirmation, title
auto-fill), then the unconditional insertion of the new study and its
claims/links.  `confirm` is the operator's `y` answer to the mismatch prompt,
`nowMonth` is `datetime.now().strftime('%Y-%m')`.  Note: no comparison against
the DOIs already in the snapshot is performed anywhere. -/
def cmd_add (db : Db) (inp : AddInput) (resolution : Option String) (confirm : Bool)
    (nowMonth : String) (nonce : String) : Except AddExit Db :=
  let gate : Except AddExit (Option String) :=
    match inp.doi with
    | none => .ok inp.title
    | some _ =>
      let result := validate_doi_core resolution inp.title
      if result.valid = false then .error .invalidDoi
      else if result.title_match = some false ∧ ¬ confirm then .error .mismatchDeclined
      else if inp.title = none ∧ result.resolved_title ≠ "" then .ok (some result.resolved_title)
      else .ok inp.title
  match gate with
  | .error e => .error e
  | .ok title =>
    let sid := make_study_id inp.authors inp.pub_year nonce
    let db' := { db with studies := db.studies ++ [addStudyRec inp title nowMonth nonce] }
    .ok (addClaimsLinks sid (parse_claim_tags_add inp.claims_raw) db')

/-- No two studies share a non-null DOI. -/
def DoiUnique (db : Db) : Prop :=
  db.studies.Pairwise (fun a b => a.doi = none ∨ a.doi ≠ b.doi)

instance (db : Db) : Decidable (DoiUnique db) := List.instDecidablePairwise _

/-- C4 fixture: a study already holding DOI `10.1/x`. -/
def c4Existing : Study := { study_id := "e", doi := some "10.1/x" }

/-- C4 fixture database. -/
def c4Db : Db := { studies := [c4Existing] }

/-- C4 fixture input: the operator enters the *same* DOI `10.1/x`. -/
def c4Inp : AddInput :=
  { authors := "Smith et al.", pub_year := 2024, doi := some "10.1/x",
    title := some "T", study_type := "RCT", sample_size := none,
    quality_score := 10, relevance_mult := 1, landmark := false,
    direction := "+", population := "all", key_finding := none,
    claims_raw := "protein→cancer" }

/-! ### `cmd_import_md` — markdown table import

The import works line-by-line over the markdown file.  Regex patterns are
translated to explicit scanners over character lists; each scanner's doc
comment names the pattern it implements. -/
/-- `digitsVal` of a run of ASCII digits. -/
def digitsVal (ds : List Char) : Nat :=
  ds.foldl (fun a c => a * 10 + (c.toNat - '0'.toNat)) 0

/-- Python `int(s)`: optional surrounding whitespace, optional sign, digits.
(Underscore digit grouping, accepted by CPython, does not occur in the data
and is not modeled.) -/
def pyInt (s : String) : Option Int :=
  let cs := pyStripL s.data
  let signed : Bool × List Char :=
    match cs with
    | '-' :: rest => (true, rest)
    | '+' :: rest => (false, rest)
    | _ => (false, cs)
  if signed.2.isEmpty || !signed.2.all Char.isDigit then none
  else some ((if signed.1 then -1 else 1) * (digitsVal signed.2 : Int))

/-- Python `float(s)` on finite decimal notation (optional sign, digits /
decimal point, optional exponent).  `inf`/`nan` spellings do not occur in the
data and are not modeled.  Exact value as a rational. -/
def pyFloat (s : String) : Option ℚ :=
  let cs := pyStripL s.data
  let signed : Bool × List Char :=
    match cs with
    | '-' :: rest => (true, rest)
    | '+' :: rest => (false, rest)
    | _ => (false, cs)
  let intDs := signed.2.takeWhile Char.isDigit
  let cs1 := signed.2.dropWhile Char.isDigit
  let fracSplit : List Char × List Char :=
    match cs1 with
    | '.' :: rest => (rest.takeWhile Char.isDigit, rest.dropWhile Char.isDigit)
    | _ => ([], cs1)
  let fracDs := fracSplit.1
  if intDs.isEmpty && fracDs.isEmpty then none
  else
    let expParsed : Option (Int × List Char) :=
      match fracSplit.2 with
      | 'e' :: rest | 'E' :: rest =>
        let signedE : Bool × List Char :=
          match rest with
          | '-' :: r2 => (true, r2)
          | '+' :: r2 => (false, r2)
          | _ => (false, rest)
        let eDs := signedE.2.takeWhile Char.isDigit
        if eDs.isEmpty then none
        else some ((if signedE.1 then -1 else 1) * (digitsVal eDs : Int),
                   signedE.2.dropWhile Char.isDigit)
      | rest => some (0, rest)
    match expParsed with
    | none => none
    | some (ex, rest) =>
      if !rest.isEmpty then none
      else
        let mant : Int := (if signed.1 then -1 else 1) * (digitsVal (intDs ++ fracDs) : Int)
        let scale : Int := ex - (fracDs.length : Int)
        if 0 ≤ scale then mkRat (mant * (10 ^ scale.toNat : Nat)) 1
        else mkRat mant (10 ^ (-scale).toNat)

/-- `parse_score(score_str)`: `(quality, relevance, final)`.  A whole number
`≤ 14` is taken as fully relevant; a value `< 7` as half-relevant
(`quality = final*2`, `relevance = 0.5`); anything else as already final.
`final == int(final)` holds exactly when the rational is integral
(denominator 1). -/
def parse_score (score_str : String) : ℚ × ℚ × ℚ :=
  match pyFloat (pyStrip score_str) with
  | none => (0, 1, 0)
  | some final =>
    if final.den = 1 && decide (final ≤ 14) then (final, 1, final)
    else if final < 7 then (qMul final 2, mkRat 1 2, final)
    else (final, 1, final)

/-- Does a backtick-delimited segment match ``[^`]+→[^`]+`` — an arrow at
neither end? -/
def tagQualifies (cs : List Char) : Bool :=
  match splitOnCharAux '→' cs [] with
  | [] => false
  | [_] => false
  | p0 :: p1 :: rest => !p0.isEmpty && (!rest.isEmpty || !p1.isEmpty)

/-- Scanner for ``re.findall(r'`([^`]+→[^`]+)`', ·)``: candidates are the
segments between consecutive backticks; a qualifying candidate is emitted and
its closing backtick consumed (so the next candidate starts after the
following segment), a non-qualifying one makes its closing backtick the next
opening one. -/
def backtickScan : List (List Char) → List (List Char)
  | [] => []
  | [_] => []
  | c :: d :: rest =>
    if tagQualifies c then c :: backtickScan rest
    else backtickScan (d :: rest)

/-- `parse_claim_tags(claims_str)`. -/
def parse_claim_tags (claims_str : String) : List String :=
  (backtickScan ((splitOnCharAux '`' claims_str.data []).drop 1)).map String.mk

/-- Lookahead of `re.split(r',\s*(?=[a-z])', ·)`: after the comma, optional
whitespace, then a lowercase ASCII letter. -/
def usedInLookahead (cs : List Char) : Bool :=
  match cs.dropWhile pyWs with
  | [] => false
  | a :: _ => 'a' ≤ a && a ≤ 'z'

/-- The splitter of `re.split(r',\s*(?=[a-z])', ·)`: mode `false` scans and
accumulates the current field, mode `true` consumes the whitespace matched by
`\s*` after an accepted comma.  Fuel keeps the recursion structural; callers
supply `2·|input|+1`, which is never exhausted. -/
def usedInSplitF : Nat → Bool → List Char → List Char → List (List Char)
  | 0, _, cs, acc => [acc.reverse ++ cs]
  | _ + 1, false, [], acc => [acc.reverse]
  | f + 1, false, c :: rest, acc =>
    if c == ',' && usedInLookahead rest then acc.reverse :: usedInSplitF f true rest []
    else usedInSplitF f false rest (c :: acc)
  | _ + 1, true, [], acc => [acc.reverse]
  | f + 1, true, c :: rest, acc =>
    if pyWs c then usedInSplitF f true rest acc
    else usedInSplitF f false (c :: rest) acc

/-- `re.search(r'\(([FS])\)', ·)`: the first `(F)` or `(S)` marker. -/
def findRole : List Char → Option Char
  | [] => none
  | '(' :: 'F' :: ')' :: _ => some 'F'
  | '(' :: 'S' :: ')' :: _ => some 'S'
  | _ :: rest => findRole rest

/-- `re.sub(r'\([FS]\)', '', ·)`: remove every `(F)`/`(S)` marker. -/
def removeRoleMarks : List Char → List Char
  | [] => []
  | '(' :: 'F' :: ')' :: rest => removeRoleMarks rest
  | '(' :: 'S' :: ')' :: rest => removeRoleMarks rest
  | c :: rest => c :: removeRoleMarks rest

/-- `re.match(r'([a-z0-9]+)#(.+)', ·)`: a non-empty lowercase-alphanumeric
page name, `#`, and a non-empty tail. -/
def matchPageCard (cs : List Char) : Option (List Char × List Char) :=
  let pName := cs.takeWhile isAsciiAlnumLower
  match pName, cs.dropWhile isAsciiAlnumLower with
  | [], _ => none
  | _, '#' :: tail => if tail.isEmpty then none else some (pName, tail)
  | _, _ => none

/-- `re.findall(r'q\d+', ·)`: every `q` followed by a maximal non-empty digit
run.  (Recursing on the unconsumed tail is equivalent to skipping the digit
run: a match must start with `q` and a digit run contains none.) -/
def findCards : List Char → List (List Char)
  | [] => []
  | c :: rest =>
    if c == 'q' then
      let ds := rest.takeWhile Char.isDigit
      if ds.isEmpty then findCards rest else ('q' :: ds) :: findCards rest
    else findCards rest

/-- `parse_used_in(used_in_str, section_page)`: decodes
`page#card1,card2(Role)` notation into `(page_file, card_id, role)` triples. -/
def parse_used_in (used_in_str : String) (section_page : Option String) :
    List (String × String × String) :=
  if used_in_str = "" || pyStrip used_in_str = "—" then []
  else
    let parts := usedInSplitF (2 * used_in_str.data.length + 1) false
      (pyStripL used_in_str.data) []
    parts.flatMap (fun part0 =>
      let part := pyStripL part0
      if part.isEmpty then []
      else
        let role := match findRole part with
          | some 'F' => "featured"
          | _ => "supporting"
        let part_clean := pyStripL (removeRoleMarks part)
        match matchPageCard part_clean with
        | some (page, tail) =>
          (findCards tail).map (fun card =>
            (String.mk page ++ "-evidence.html", String.mk card, role))
        | none =>
          let page_file := match section_page with
            | some sp => sp ++ "-evidence.html"
            | none => "unknown.html"
          (findCards part_clean).map (fun card => (page_file, String.mk card, role)))

/-- `SECTION_TO_PAGE`. -/
def sectionToPage (name : String) : Option String :=
  if name = "Sleep" then some "sleep"
  else if name = "Mindset" then some "mindset"
  else if name = "Wellbeing" then some "wellbeing"
  else if name = "Nutrition" then some "nutrition"
  else if name = "Protein" then some "protein"
  else if name = "VO2max" then some "vo2max"
  else if name = "Muscle Strength" then some "muscle"
  else none

/-- `SECTION_PATTERN = r'^## (.+)$'`, then `.group(1).strip()`. -/
def sectionName (line : String) : Option String :=
  if strStartsWith line "## " && decide (3 < line.data.length) then
    some (String.mk (pyStripL (line.data.drop 3)))
  else none

/-- `TABLE_ROW_PATTERN = r'^\|(.+)\|$'`, then
`[c.strip() for c in match.group(1).split('|')]`. -/
def tableRowCells (line : String) : Option (List String) :=
  match line.data with
  | '|' :: rest =>
    if rest.length ≥ 2 && rest.getLast? == some '|' then
      some ((splitOnCharAux '|' rest.dropLast []).map (fun c => String.mk (pyStripL c)))
    else none
  | _ => none

/-- `{'+': '+', '−': '−', '-': '−', '±': '±'}.get(d, d)`. -/
def dirMap (s : String) : String :=
  if s = "+" then "+"
  else if s = "−" then "−"
  else if s = "-" then "−"
  else if s = "±" then "±"
  else s

/-- A study's `doi` as the truthiness filter
`{s['doi'] for s in db['studies'] if s.get('doi')}` sees it: `none` for an
absent or empty DOI. -/
def doiTruthy (s : Study) : Option String :=
  match s.doi with
  | some d => if d = "" then none else some d
  | none => none

/-- One vocabulary-table row
(`tag = cells[0].strip().strip('`'); …`). -/
def vocabRow (st : Db × List String) (line : String) : Db × List String :=
  match tableRowCells line with
  | none => st
  | some cells =>
    if cells.length ≥ 2 then
      let tag := pyStripChar '`' (pyStrip (cells.headD ""))
      let desc := pyStrip (cells.getD 1 "")
      if strContains tag "→" && tag ≠ "Tag" && !st.2.contains tag then
        ({ st.1 with claims := st.1.claims ++ [mkClaimRec tag desc] }, st.2 ++ [tag])
      else st
    else st

/-- The claim-vocabulary loop of `cmd_import_md`: entered at a line containing
`## Claim Tag Vocabulary`, *broken* (not reset) at the next `## ` heading. -/
def vocabPass : List String → Bool → (Db × List String) → (Db × List String)
  | [], _, st => st
  | line :: rest, inVocab, st =>
    if strContains line "## Claim Tag Vocabulary" then vocabPass rest true st
    else if inVocab && strStartsWith line "## " then st
    else if inVocab && strStartsWith line "|" then vocabPass rest inVocab (vocabRow st line)
    else vocabPass rest inVocab st

/-- The mutable state of the study-table loop of `cmd_import_md`.
`existingDois`/`existingClaims` are the code's sets, kept as lists (only
membership is consulted); `uidIdx` indexes the stream of random `uid()` draws,
which is a parameter of the import. -/
structure ImportState where
  db : Db
  existingDois : List String
  existingClaims : List String
  currentSection : Option String := none
  currentPage : Option String := none
  inRemoved : Bool := false
  uidIdx : Nat := 0
  studiesAdded : Nat := 0
  deriving Repr

/-- The DOI cell: `cells[2].strip() if cells[2].strip().startswith('10.') else None`. -/
def rowDoi (cells : List String) : Option String :=
  if strStartsWith (cells.getD 2 "") "10." then some (cells.getD 2 "") else none

/-- The study dict built for one accepted table row (fields as parsed from the
cells; `cells[1]` is an age subtracted from 2026, defaulting the year to 2020
on a parse failure). -/
def rowStudy (uids : Nat → String) (st : ImportState) (cells : List String) : Study :=
  let authors := pyStrip (pyStripChar '*' (cells.getD 0 ""))
  let pub_year : Int :=
    match pyInt (cells.getD 1 "") with
    | some n => 2026 - n
    | none => 2020
  let score := parse_score (cells.getD 5 "")
  let notes := cells.getD 11 ""
  { study_id := make_study_id authors pub_year (String.mk ((uids st.uidIdx).data.take 4)),
    authors := authors, pub_year := pub_year,
    doi := rowDoi cells, study_type := cells.getD 3 "",
    sample_size := if cells.getD 4 "" = "" then none else some (cells.getD 4 ""),
    quality_score := score.1, relevance_mult := some score.2.1,
    final_score := score.2.2,
    landmark := some (strUpper (cells.getD 6 "") == "Y"),
    direction := dirMap (cells.getD 7 ""),
    population := if cells.getD 8 "" = "" then "all" else cells.getD 8 "",
    key_finding := if notes = "" then none else some notes,
    verified_date := some "2026-02",
    notes := if notes = "" then none else some notes }

/-- The record construction and bookkeeping for one accepted study row (the
body after the duplicate-DOI `continue`).  The field computations are pure, so
hoisting them below the skip test (which the code performs after computing
them) is observationally identical. -/
def importRowAdd (uids : Nat → String) (st : ImportState) (cells : List String) :
    ImportState :=
  let doi := rowDoi cells
  let study := rowStudy uids st cells
  let sid := study.study_id
  let st := { st with
    db := { st.db with studies := st.db.studies ++ [study] },
    existingDois := match doi with
      | some d => st.existingDois ++ [d]
      | none => st.existingDois,
    uidIdx := st.uidIdx + 1,
    studiesAdded := st.studiesAdded + 1 }
  let st := (parse_claim_tags (cells.getD 9 "")).foldl (fun st tag =>
    let st :=
      if st.existingClaims.contains tag then st
      else { st with
               db := { st.db with claims := st.db.claims ++ [mkClaimRec tag ""] },
               existingClaims := st.existingClaims ++ [tag] }
    let link : StudyClaimLink := { study_id := sid, claim_id := tag }
    if st.db.study_claims.contains link then st
    else { st with db := { st.db with study_claims := st.db.study_claims ++ [link] } }) st
  (parse_used_in (cells.getD 10 "") st.currentPage).foldl (fun st pcr =>
    { st with
      db := { st.db with evidence_usage := st.db.evidence_usage ++
        [{ id := String.mk ((uids st.uidIdx).data.take 12), study_id := sid,
           page_file := pcr.1, card_id := pcr.2.1, role := pcr.2.2 }] },
      uidIdx := st.uidIdx + 1 }) st

/-- One accepted table row: skipped entirely when its DOI is already known
(`if doi and doi in existing_dois: continue`), else added. -/
def importRow (uids : Nat → String) (st : ImportState) (cells : List String) :
    ImportState :=
  if (rowDoi cells).isSome && st.existingDois.contains ((rowDoi cells).getD "") then st
  else importRowAdd uids st cells

/-- The `## `-heading state updates of the study-table loop. -/
def sectionUpdate (st : ImportState) (name : String) : ImportState :=
  match sectionToPage name with
  | some page => { st with currentSection := some name, currentPage := some page,
                           inRemoved := false }
  | none =>
    if strContains name "Removed" then { st with inRemoved := true, currentSection := none }
    else { st with currentSection := none, inRemoved := false }

/-- One iteration of the study-table loop of `cmd_import_md`. -/
def importStep (uids : Nat → String) (st : ImportState) (line : String) : ImportState :=
  match sectionName line with
  | some name => sectionUpdate st name
  | none =>
    if !strStartsWith line "|" || st.inRemoved || st.currentSection.isNone then st
    else
      match tableRowCells line with
      | none => st
      | some cells =>
        if cells.isEmpty || strStartsWith (cells.headD "") "---" || cells.headD "" == "Study"
        then st
        else if cells.length < 12 then st
        else importRow uids st cells

/-- `cmd_import_md` as a function of the file's lines, parameterized by the
stream `uids` of random `uuid4().hex[:12]` draws.  The existing-DOI and
existing-claim sets are snapshotted, the claim vocabulary imported, then every
line run through the study-table loop; the final snapshot is saved. -/
def cmd_import_md (uids : Nat → String) (db : Db) (lines : List String) : Db :=
  let existingDois := db.studies.filterMap doiTruthy
  let existingClaims := db.claims.map (fun c => c.claim_id)
  let afterVocab := vocabPass lines false (db, existingClaims)
  (lines.foldl (importStep uids)
    { db := afterVocab.1, existingDois := existingDois,
      existingClaims := afterVocab.2 }).db

/-! ### `cmd_import_refs` — import from evidence-page JSON

The regex extraction of `(doi, authors, year, title)` from each `studyRefs`
HTML entry is abstracted as the already-extracted `RefEntry` list; what is
embedded is the record construction and the DOI-dedup loop. -/
/-- One reference extracted from a `studyRefs` entry. -/
structure RefEntry where
  doi : Option String
  authors : String
  year : Int
  title : String
  cardId : String
  deriving DecidableEq, Repr

/-- The study dict `cmd_import_refs` appends: `quality_score = 0`,
`final_score = 0`, and a `relevance` key (not `relevance_mult`) of `1.0`. -/
def refStudy (uids : Nat → String) (idx : Nat) (page_name nowMonth nowDay : String)
    (e : RefEntry) : Study :=
  { study_id := make_study_id e.authors e.year (String.mk ((uids idx).data.take 4)),
    authors := e.authors,
    authors_short := some (if e.authors.data.length < 30 then e.authors
      else String.mk (e.authors.data.take 30)),
    pub_year := e.year, title := some e.title, doi := e.doi,
    url := some (match e.doi with | some d => "https://doi.org/" ++ d | none => ""),
    study_type := "Study", quality_score := 0,
    is_landmark := some false, direction := "+",
    relevance := some 1, final_score := 0,
    key_finding := some "", status := some "active",
    verified_date := some nowMonth, added_date := some nowDay,
    notes := some ("Auto-imported from " ++ page_name ++ ".json card " ++ e.cardId) }

/-- `cmd_import_refs` over the extracted entries: a row whose DOI is already
known is skipped, otherwise its study is appended and its DOI recorded. -/
def cmd_import_refs (uids : Nat → String) (page_name nowMonth nowDay : String)
    (db : Db) (entries : List RefEntry) : Db :=
  (entries.foldl (fun (st : Db × List String × Nat) e =>
    if e.doi.isSome && st.2.1.contains (e.doi.getD "") then st
    else
      (({ st.1 with studies :=
            st.1.studies ++ [refStudy uids st.2.2 page_name nowMonth nowDay e] } : Db),
       (match e.doi with | some d => st.2.1 ++ [d] | none => st.2.1),
       st.2.2 + 1))
    (db, db.studies.filterMap doiTruthy, 0)).1

/-! ### C7 — the final-score invariant -/
/-- `final_score == quality_score * relevance_mult`: the relevance factor is
the record's `relevance_mult` when present (import-md / add records), else its
`relevance` key (import-refs records carry that key instead). -/
def FinalScoreOK (s : Study) : Prop :=
  ∃ r : ℚ, (s.relevance_mult = some r ∨ (s.relevance_mult = none ∧ s.relevance = some r)) ∧
    s.final_score = s.quality_score * r

/-- Fixture lines for C7's witness: one DOI-carrying study row. -/
def c7Lines : List String :=
  ["## Sleep", "|A|1|10.1/x|RCT|100|10|N|+|all|`a→b`|—|n|"]

/-- A constant uid stream for fixtures (collisions are irrelevant). -/
def fixU : Nat → String := fun _ => "abcd1234abcd"

/-- The section-state components of the study-table loop. -/
def controlOf (st : ImportState) : Option String × Option String × Bool :=
  (st.currentSection, st.currentPage, st.inRemoved)

/-- The section-state transition, a function of the line alone (plus the
carried-over page for `Removed`/unknown headings). -/
def ctrlStep (c : Option String × Option String × Bool) (line : String) :
    Option String × Option String × Bool :=
  match sectionName line with
  | some name =>
    match sectionToPage name with
    | some page => (some name, some page, false)
    | none =>
      if strContains name "Removed" then (none, c.2.1, true)
      else (none, c.2.1, false)
  | none => c

/-- The threaded `existing_claims` set always holds exactly the claim ids of
the snapshot. -/
def ECInv (st : ImportState) : Prop :=
  ∀ t, t ∈ st.existingClaims ↔ t ∈ st.db.claims.map (fun c => c.claim_id)

/-- The threaded `existing_dois` set always holds exactly the non-null,
non-empty DOIs of the snapshot's studies. -/
def DoisInv (st : ImportState) : Prop :=
  ∀ d, d ∈ st.existingDois ↔ d ∈ st.db.studies.filterMap doiTruthy

/-- Every data row of the line (if it is one) carries a DOI: the side
condition under which a second import is a no-op. -/
def rowDoiOk (line : String) : Bool :=
  match tableRowCells line with
  | none => true
  | some cells =>
    if cells.isEmpty || strStartsWith (cells.headD "") "---" || cells.headD "" == "Study"
    then true
    else if cells.length < 12 then true
    else (rowDoi cells).isSome

/-- Fixture lines for C6's counterexample: a valid study row *without* a DOI
(`—` in the DOI column). -/
def c6Lines : List String := ["## Sleep", "|A|1|—|RCT|100|10|N|+|all|`a→b`|—|note|"]

/-- A second fixed uuid stream (the second run of the tool draws fresh random
hex, so its study ids differ from the first run's). -/
def fixU2 : Nat → String := fun _ => "ffff0000ffff"

/-- Fixture lines for C6's witness: vocabulary plus one DOI-carrying row. -/
def c6DLines : List String :=
  ["## Claim Tag Vocabulary", "| `x→y` | desc |", "## Sleep",
   "|B|2|10.1/z|RCT|100|3.5|Y|−|<65|`x→y`, `a→b`|sleep#q1,q2(F)|n|"]

/-! ### C10 - persistence round-trip (save_db / load_db) -/
/-- JSON document values as Python's `json` module handles them for this
store: objects keep their members in insertion order; numbers are decimal
values `m / 10^e` (integers when `e = 0`, finite decimals as produced by
float `repr` otherwise — exponent notation and non-finite floats do not occur
in the store's data and are not modeled); strings are arbitrary unicode. -/
inductive Json where
  | null
  | bool (b : Bool)
  | num (m : Int) (e : Nat)
  | str (s : String)
  | arr (l : List Json)
  | obj (ms : List (String × Json))

/-- The decimal digit characters. -/
def digitChar : Nat → Char
  | 0 => '0' | 1 => '1' | 2 => '2' | 3 => '3' | 4 => '4'
  | 5 => '5' | 6 => '6' | 7 => '7' | 8 => '8' | _ => '9'

/-- The hexadecimal digit characters (lowercase, as Python emits them). -/
def hexChar : Nat → Char
  | 0 => '0' | 1 => '1' | 2 => '2' | 3 => '3' | 4 => '4'
  | 5 => '5' | 6 => '6' | 7 => '7' | 8 => '8' | 9 => '9'
  | 10 => 'a' | 11 => 'b' | 12 => 'c' | 13 => 'd' | 14 => 'e' | _ => 'f'

/-- Decimal digits of `n`, most significant first (fuel-driven so the kernel
can evaluate it; `fuel ≥ n` always suffices). -/
def natCharsAux : Nat → Nat → List Char
  | 0, _ => []
  | fuel+1, n =>
    if n < 10 then [digitChar n]
    else natCharsAux fuel (n / 10) ++ [digitChar (n % 10)]

/-- Decimal digits of `n`, most significant first. -/
def natChars (n : Nat) : List Char := natCharsAux (n + 1) n

/-- `indent=2` padding at nesting level `L`. -/
def pad (L : Nat) : List Char := List.replicate (2 * L) ' '

/-- Digits of `n` padded with leading zeros to at least `e + 1` digits. -/
def padDigits (n e : Nat) : List Char :=
  List.replicate (e + 1 - (natChars n).length) '0' ++ natChars n

/-- The digits (with decimal point when `e > 0`) of the non-negative decimal
`n / 10^e`, exactly as Python renders `int` / finite-`float` values. -/
def numAbsChars (n e : Nat) : List Char :=
  (padDigits n e).take ((padDigits n e).length - e) ++
    (if e = 0 then [] else '.' :: (padDigits n e).drop ((padDigits n e).length - e))

/-- Decimal rendering of the signed decimal `m / 10^e`. -/
def numChars (m : Int) (e : Nat) : List Char :=
  (if m < 0 then ['-'] else []) ++ numAbsChars m.natAbs e

/-- One character of a JSON string body, escaped the way
`json.dumps(..., ensure_ascii=False)` escapes it: quote, backslash and
control characters are escaped (named escapes for the common five, `\u00XX`
for the rest), everything else is written raw. -/
def escChar (c : Char) : List Char :=
  if c = '"' then ['\\', '"']
  else if c = '\\' then ['\\', '\\']
  else if c = '\n' then ['\\', 'n']
  else if c = '\r' then ['\\', 'r']
  else if c = '\t' then ['\\', 't']
  else if c.toNat = 8 then ['\\', 'b']
  else if c.toNat = 12 then ['\\', 'f']
  else if c.toNat < 32 then
    ['\\', 'u', '0', '0', hexChar (c.toNat / 16), hexChar (c.toNat % 16)]
  else [c]

/-- Escape a whole string body. -/
def escList : List Char → List Char
  | [] => []
  | c :: cs => escChar c ++ escList cs

/-- A serialized JSON string literal. -/
def serStr (s : String) : List Char := '"' :: (escList s.data ++ ['"'])

mutual

/-- `json.dumps(v, indent=2, ensure_ascii=False)` at nesting level `L`
(as a character list; the store always serializes from level 0). -/
def ser : Json → Nat → List Char
  | .null, _ => ['n', 'u', 'l', 'l']
  | .bool true, _ => ['t', 'r', 'u', 'e']
  | .bool false, _ => ['f', 'a', 'l', 's', 'e']
  | .num m e, _ => numChars m e
  | .str s, _ => serStr s
  | .arr [], _ => ['[', ']']
  | .arr (x :: xs), L =>
    '[' :: '\n' :: (pad (L + 1) ++
      (serElems (x :: xs) (L + 1) ++ ('\n' :: (pad L ++ [']']))))
  | .obj [], _ => ['{', '}']
  | .obj (m :: ms), L =>
    '{' :: '\n' :: (pad (L + 1) ++
      (serMembers (m :: ms) (L + 1) ++ ('\n' :: (pad L ++ ['}']))))

/-- Array items, separated by `",\n" + padding`. -/
def serElems : List Json → Nat → List Char
  | [], _ => []
  | [x], L => ser x L
  | x :: y :: xs, L =>
    ser x L ++ (',' :: '\n' :: (pad L ++ serElems (y :: xs) L))

/-- Object members `"key": value`, separated by `",\n" + padding`. -/
def serMembers : List (String × Json) → Nat → List Char
  | [], _ => []
  | [(k, v)], L => serStr k ++ (':' :: ' ' :: ser v L)
  | (k, v) :: m :: ms, L =>
    serStr k ++ (':' :: ' ' :: ser v L) ++
      (',' :: '\n' :: (pad L ++ serMembers (m :: ms) L))

end

/-- JSON whitespace, as `json.loads` skips it. -/
def wsChar (c : Char) : Bool := c = ' ' || c = '\t' || c = '\n' || c = '\r'

/-- Drop leading JSON whitespace. -/
def skipWs : List Char → List Char
  | [] => []
  | c :: r => if wsChar c then skipWs r else c :: r

/-- Longest digit prefix and the remainder. -/
def spanDigits : List Char → List Char × List Char
  | [] => ([], [])
  | c :: r =>
    if c.isDigit then
      match spanDigits r with
      | (a, b) => (c :: a, b)
    else ([], c :: r)

/-- Value of a digit character. -/
def charVal (c : Char) : Nat := c.toNat - '0'.toNat

/-- Value of a hexadecimal digit character (`16` when it is none). -/
def hexVal (c : Char) : Nat :=
  if c.isDigit then c.toNat - '0'.toNat
  else if 'a' ≤ c ∧ c ≤ 'f' then c.toNat - 'a'.toNat + 10
  else if 'A' ≤ c ∧ c ≤ 'F' then c.toNat - 'A'.toNat + 10
  else 16

/-- Whether a character is a hexadecimal digit. -/
def isHex (c : Char) : Bool := hexVal c < 16

/-- The one-character JSON escapes. -/
def escUn (e : Char) : Option Char :=
  if e = '"' then some '"'
  else if e = '\\' then some '\\'
  else if e = '/' then some '/'
  else if e = 'n' then some '\n'
  else if e = 't' then some '\t'
  else if e = 'r' then some '\r'
  else if e = 'b' then some (Char.ofNat 8)
  else if e = 'f' then some (Char.ofNat 12)
  else none

/-- Prepend a decoded character to a string-body parse result. -/
def consRes (c : Char) : Option (List Char × List Char) → Option (List Char × List Char)
  | some (s, rr) => some (c :: s, rr)
  | none => none

/-- Parse a JSON string body after the opening quote, through the closing
quote; returns the decoded characters and the remainder. -/
def pStrBody : List Char → Option (List Char × List Char)
  | [] => none
  | c :: r =>
    if c = '"' then some ([], r)
    else if c = '\\' then
      match r with
      | [] => none
      | e :: r2 =>
        if e = 'u' then
          match r2 with
          | h1 :: h2 :: h3 :: h4 :: r3 =>
            if isHex h1 && isHex h2 && isHex h3 && isHex h4 then
              consRes (Char.ofNat
                (((hexVal h1 * 16 + hexVal h2) * 16 + hexVal h3) * 16 + hexVal h4))
                (pStrBody r3)
            else none
          | _ => none
        else
          match escUn e with
          | some c2 => consRes c2 (pStrBody r2)
          | none => none
    else consRes c (pStrBody r)

/-- Head of a list, or a placeholder that is no digit, separator or
whitespace. -/
def headCh (l : List Char) : Char := l.headD 'x'

/-- Whether a number may stop in front of this remainder: its head continues
neither the digits nor a fraction. -/
def stopOk (l : List Char) : Bool := !(headCh l).isDigit && !(headCh l == '.')

/-- The signed integer `±n`. -/
def mkSigned (neg : Bool) (n : Nat) : Int := if neg then -(n : Int) else (n : Int)

/-- Parse the digits of a JSON number (integer part, optional fraction). -/
def pNumCore (neg : Bool) (cs : List Char) : Option (Json × List Char) :=
  if (spanDigits cs).1.isEmpty then none
  else if (spanDigits cs).2 = [] then
    some (.num (mkSigned neg (digitsVal (spanDigits cs).1)) 0, [])
  else if headCh (spanDigits cs).2 = '.' then
    (if (spanDigits (spanDigits cs).2.tail).1.isEmpty then none
     else some (.num (mkSigned neg (digitsVal (spanDigits cs).1 *
         10 ^ (spanDigits (spanDigits cs).2.tail).1.length +
         digitsVal (spanDigits (spanDigits cs).2.tail).1))
       (spanDigits (spanDigits cs).2.tail).1.length, (spanDigits (spanDigits cs).2.tail).2))
  else some (.num (mkSigned neg (digitsVal (spanDigits cs).1)) 0, (spanDigits cs).2)

/-- Parse a JSON number (decimal integers and fractions; the store's
serializer never emits exponent notation, which is therefore out of scope). -/
def pNum (cs : List Char) : Option (Json × List Char) :=
  match cs with
  | [] => none
  | c :: r => if c = '-' then pNumCore true r else pNumCore false (c :: r)

/-- Insert a parsed object member the way building a Python dict from parsed
pairs does: a repeated key keeps its first position but takes the later
value. -/
def dinsert (k : String) (v : Json) (ms : List (String × Json)) :
    List (String × Json) :=
  if ms.any (fun p => p.1 == k) then
    (k, (((ms.filter (fun p => p.1 == k)).getLast?).map Prod.snd).getD v) ::
      ms.filter (fun p => !(p.1 == k))
  else (k, v) :: ms

/-- Parser mode: a single value, array elements, or object members. -/
inductive PMode where
  | val
  | elems
  | members

/-- Fuel-driven recursive-descent parser for the JSON subset `json.dumps`
emits (fuel bounds the recursion depth; element and member modes return the
collected list wrapped in `.arr` / `.obj`). -/
def pAux : Nat → PMode → List Char → Option (Json × List Char)
  | 0, _, _ => none
  | fuel+1, .val, cs =>
    match skipWs cs with
    | [] => none
    | c :: r =>
      if c = 'n' then
        match r with
        | 'u' :: 'l' :: 'l' :: r2 => some (.null, r2)
        | _ => none
      else if c = 't' then
        match r with
        | 'r' :: 'u' :: 'e' :: r2 => some (.bool true, r2)
        | _ => none
      else if c = 'f' then
        match r with
        | 'a' :: 'l' :: 's' :: 'e' :: r2 => some (.bool false, r2)
        | _ => none
      else if c = '"' then
        match pStrBody r with
        | some (s, rr) => some (.str (String.mk s), rr)
        | none => none
      else if c = '[' then
        match skipWs r with
        | [] => none
        | c2 :: r2 => if c2 = ']' then some (.arr [], r2) else pAux fuel .elems r
      else if c = '{' then
        match skipWs r with
        | [] => none
        | c2 :: r2 => if c2 = '}' then some (.obj [], r2) else pAux fuel .members r
      else pNum (c :: r)
  | fuel+1, .elems, cs =>
    match pAux fuel .val cs with
    | none => none
    | some (x, r) =>
      match skipWs r with
      | [] => none
      | c :: r2 =>
        if c = ',' then
          match pAux fuel .elems r2 with
          | some (.arr l, r3) => some (.arr (x :: l), r3)
          | _ => none
        else if c = ']' then some (.arr [x], r2)
        else none
  | fuel+1, .members, cs =>
    match skipWs cs with
    | [] => none
    | c :: r =>
      if c = '"' then
        match pStrBody r with
        | none => none
        | some (k, r1) =>
          match skipWs r1 with
          | [] => none
          | c2 :: r2 =>
            if c2 = ':' then
              match pAux fuel .val r2 with
              | none => none
              | some (v, r3) =>
                match skipWs r3 with
                | [] => none
                | c3 :: r4 =>
                  if c3 = ',' then
                    match pAux fuel .members r4 with
                    | some (.obj ms, r5) => some (.obj (dinsert (String.mk k) v ms), r5)
                    | _ => none
                  else if c3 = '}' then some (.obj [(String.mk k, v)], r4)
                  else none
            else none
      else none

/-- The `[`-branch of the value parser, as a named function for reasoning. -/
def pArrBody (f : Nat) (r : List Char) : Option (Json × List Char) :=
  match skipWs r with
  | [] => none
  | c2 :: r2 => if c2 = ']' then some (.arr [], r2) else pAux f .elems r

/-- The `\x7b`-branch of the value parser, as a named function for reasoning. -/
def pObjBody (f : Nat) (r : List Char) : Option (Json × List Char) :=
  match skipWs r with
  | [] => none
  | c2 :: r2 => if c2 = '}' then some (.obj [], r2) else pAux f .members r

/-- The string branch of the value parser, as a named function for reasoning. -/
def pStrRes (r : List Char) : Option (Json × List Char) :=
  match pStrBody r with
  | some (s, rr) => some (.str (String.mk s), rr)
  | none => none

/-- One dispatch step of the value parser on a stripped input. -/
def pValBody (f : Nat) (c : Char) (r : List Char) : Option (Json × List Char) :=
  if c = 'n' then
    match r with
    | 'u' :: 'l' :: 'l' :: r2 => some (.null, r2)
    | _ => none
  else if c = 't' then
    match r with
    | 'r' :: 'u' :: 'e' :: r2 => some (.bool true, r2)
    | _ => none
  else if c = 'f' then
    match r with
    | 'a' :: 'l' :: 's' :: 'e' :: r2 => some (.bool false, r2)
    | _ => none
  else if c = '"' then pStrRes r
  else if c = '[' then pArrBody f r
  else if c = '{' then pObjBody f r
  else pNum (c :: r)

/-- The empty snapshot `load_db` fabricates when `studies.json` is missing. -/
def emptyDbJson : Json :=
  .obj [("studies", .arr []), ("claims", .arr []),
        ("study_claims", .arr []), ("evidence_usage", .arr [])]

/-- `save_db`: `json.dumps(db, indent=2, ensure_ascii=False)`. -/
def save_db (v : Json) : String := String.mk (ser v 0)

/-- `load_db`: the empty snapshot when the file is missing, otherwise
`json.loads` of its text (`none` models the `JSONDecodeError` raise; the
parse must consume everything but trailing whitespace). -/
def load_db : Option String → Option Json
  | none => some emptyDbJson
  | some s =>
    match pAux (s.data.length + 1) .val s.data with
    | some (v, r) => if skipWs r = [] then some v else none
    | none => none

/-- A value a Python snapshot dict can denote: object keys are distinct at
every level (Python dicts cannot hold duplicate keys). -/
inductive JsonWF : Json → Prop where
  | null : JsonWF .null
  | bool (b : Bool) : JsonWF (.bool b)
  | num (m : Int) (e : Nat) : JsonWF (.num m e)
  | str (s : String) : JsonWF (.str s)
  | arr (l : List Json) : (∀ x ∈ l, JsonWF x) → JsonWF (.arr l)
  | obj (ms : List (String × Json)) : (∀ p ∈ ms, JsonWF p.2) →
      (ms.map Prod.fst).Nodup → JsonWF (.obj ms)

/-- A concrete snapshot with one study record, exercising every JSON shape
the store writes (strings with escapes, ints, decimals, null, bool, arrays,
nested objects). -/
def c10Snapshot : Json :=
  Json.obj [("studies", Json.arr [Json.obj
      [("study_id", Json.str "smith-2020-ab12cd34"),
       ("authors", Json.str "Smith & Jones"),
       ("pub_year", Json.num 2020 0),
       ("quality_score", Json.num 7 0),
       ("relevance_mult", Json.num 5 1),
       ("final_score", Json.num 35 1),
       ("doi", Json.null),
       ("is_landmark", Json.bool false),
       ("title", Json.str "Sleep \"quality\"\nand aging")]]),
    ("claims", Json.arr []),
    ("study_claims", Json.arr []),
    ("evidence_usage", Json.arr [])]

theorem charListLt_iff (as : List Char) :
    ∀ bs, charListLt as bs = true ↔ List.Lex (· < ·) as bs := by
  induction as with
  | nil =>
    intro bs
    cases bs with
    | nil => simp only [charListLt, Bool.false_eq_true, false_iff]; intro h; cases h
    | cons b bs => simp only [charListLt, true_iff]; exact List.Lex.nil
  | cons a as ih =>
    intro bs
    cases bs with
    | nil => simp only [charListLt, Bool.false_eq_true, false_iff]; intro h; cases h
    | cons b bs =>
      simp only [charListLt]
      by_cases hab : a < b
      · simp only [hab, if_pos, true_iff]
        exact List.Lex.rel hab
      · rw [if_neg hab]
        by_cases hba : b < a
        · simp only [hba, if_pos, Bool.false_eq_true, false_iff]
          intro h
          cases h with
          | cons h => exact lt_irrefl a hba
          | rel h => exact hab h
        · have hEq : a = b := le_antisymm (not_lt.mp hba) (not_lt.mp hab)
          subst hEq
          rw [if_neg hba, ih bs]
          exact List.Lex.cons_iff.symm

theorem strLt_iff (a b : String) : strLt a b = true ↔ a < b := by
  rw [String.lt_iff_toList_lt]
  exact charListLt_iff a.data b.data

theorem strLe_iff (a b : String) : strLe a b = true ↔ a ≤ b := by
  rw [strLe, Bool.not_eq_true', ← Bool.not_eq_true, strLt_iff, not_lt]

/-- C1, counterexample: the claim says that when the link specifies no
direction, the returned study carries *the study's own* direction (`"+"` here).
In fact `find_studies_for_claim` annotates with `lk.get('direction', '')`, so
the returned copy carries `""`, not the study's own `"+"`. -/
theorem c1_counterexample :
    ((find_studies_for_claim c1Db "c" none).map (fun s => s.direction) = [""]) ∧
    c1Study ∈ c1Db.studies ∧ c1Study.direction = "+" ∧
    ¬ (∀ t ∈ find_studies_for_claim c1Db "c" none, t.direction = c1Study.direction) := by
  decide

/-- C1 (amended): every study returned by the synthesis gather step comes from a
study of the snapshot and a (last matching) link to the claim, and carries as
its direction annotation the link's direction when the link specifies one and
the empty string otherwise — the study's own `direction` field is overwritten,
never consulted. -/
theorem c1_direction_annotation (db : Db) (cid : String) (t : Study)
    (ht : t ∈ find_studies_for_claim db cid none) :
    ∃ s ∈ db.studies, ∃ lk, lastLinkFor db.study_claims cid s.study_id = some lk ∧
      t = { s with direction := lk.direction.getD "" } := by
  unfold find_studies_for_claim sortScoreDesc at ht
  rw [(List.perm_insertionSort scoreDesc _).mem_iff] at ht
  simp only [List.mem_filterMap, Option.map_eq_some'] at ht
  obtain ⟨s, hs, lk, hlk, ht⟩ := ht
  exact ⟨s, hs, lk, hlk, ht.symm⟩

/-- Witness for C1's amended theorem at the fixture database. -/
theorem c1_witness :
    ∃ s ∈ c1Db.studies, ∃ lk, lastLinkFor c1Db.study_claims "c" s.study_id = some lk ∧
      ({ c1Study with direction := "" } : Study) = { s with direction := lk.direction.getD "" } :=
  c1_direction_annotation c1Db "c" { c1Study with direction := "" } (by decide)

theorem sorted_find_studies (db : Db) (cid : String) (d : Option String) :
    List.Sorted scoreDesc (find_studies_for_claim db cid d) := by
  unfold find_studies_for_claim sortScoreDesc
  exact List.sorted_insertionSort scoreDesc _

theorem topScore_is_max {l : List Study} (hl : List.Sorted scoreDesc l) :
    ∀ x ∈ l, x.final_score ≤ topScore l := by
  cases l with
  | nil => intro x hx; cases hx
  | cons s rest =>
    intro x hx
    rcases List.mem_cons.mp hx with h | h
    · subst h; exact le_refl _
    · exact (List.sorted_cons.mp hl).1 x h

theorem netCode_eq_netSpec (plus minus mixed : List Study) :
    netCode plus minus mixed = netSpec plus minus mixed := by
  have hcmp : (if topScore minus ≤ topScore plus then "+ (contested)" else "− (contested)")
      = (if topScore minus < topScore plus then "+ (contested)"
         else if topScore plus < topScore minus then "− (contested)"
         else "+ (contested)") := by
    rcases lt_trichotomy (topScore minus) (topScore plus) with hlt | heq | hgt
    · rw [if_pos hlt.le, if_pos hlt]
    · rw [heq, if_pos le_rfl, if_neg (lt_irrefl _), if_neg (lt_irrefl _)]
    · rw [if_neg (not_le.mpr hgt), if_neg (asymm hgt), if_pos hgt]
  unfold netCode netSpec
  cases plus <;> cases minus <;> cases mixed <;>
    simp_all [List.isEmpty]

/-- C2: for every claim with at least one linked study the net direction equals
the spec's resolution rule `netSpec` (priority order over the plus/minus/mixed
partitions, contested case decided by the strictly higher top score, ties to
`+ (contested)`), where the top score of a partition really bounds every score
in it; and the literal fixture `A(final=12, dir=+)`, `B(final=9, dir=−)` yields
net `"+ (contested)"` with confidence `Strong`. -/
theorem c2_net_resolution :
    (∀ db cid e, summary_for db cid = some e →
      (fun studies =>
        (fun plus minus mixed =>
          (∀ x ∈ plus, x.final_score ≤ topScore plus) ∧
          (∀ x ∈ minus, x.final_score ≤ topScore minus) ∧
          e.net = netSpec plus minus mixed)
        (studies.filter (fun s => s.direction == "+"))
        (studies.filter (fun s => s.direction == "−"))
        (studies.filter (fun s => s.direction == "±")))
      (find_studies_for_claim db cid none)) ∧
    (build_summary_data c2Db).map (fun e => (e.claim, e.net, e.confidence)) =
      [("X→Y", "+ (contested)", "Strong")] := by
  constructor
  · intro db cid e he
    have hsorted := sorted_find_studies db cid none
    unfold summary_for at he
    split at he
    · exact absurd he (by simp)
    · next s0 rest hfind =>
      rw [hfind] at hsorted
      simp only [Option.some.injEq] at he
      subst he
      simp only [hfind]
      refine ⟨topScore_is_max (List.Pairwise.filter _ hsorted),
              topScore_is_max (List.Pairwise.filter _ hsorted), ?_⟩
      show netCode _ _ _ = _
      exact netCode_eq_netSpec _ _ _
  · decide

/-- Witness for C2's universally quantified part, at the fixture database. -/
theorem c2_witness :
    summary_for c2Db "X→Y" = some (summary_core "X→Y"
      { c2A with direction := "+" } [{ c2B with direction := "−" }]) ∧
    ((fun studies =>
        (fun plus minus mixed =>
          (∀ x ∈ plus, x.final_score ≤ topScore plus) ∧
          (∀ x ∈ minus, x.final_score ≤ topScore minus) ∧
          (summary_core "X→Y" { c2A with direction := "+" }
            [{ c2B with direction := "−" }]).net = netSpec plus minus mixed)
        (studies.filter (fun s => s.direction == "+"))
        (studies.filter (fun s => s.direction == "−"))
        (studies.filter (fun s => s.direction == "±")))
      (find_studies_for_claim c2Db "X→Y" none)) :=
  ⟨by decide, c2_net_resolution.1 c2Db "X→Y" _ (by decide)⟩

/-- C3, counterexample: the claim (and the spec's supersede invariant) says
`supersede(A, A)` fails.  It does not: both lookups find the same study, so the
operation succeeds and marks `A` as superseded by itself. -/
theorem c3_counterexample :
    cmd_supersede c3Db "A" "A" = .ok { c3Db with studies :=
      [{ c3A with status := some "superseded", superseded_by := some "A" }] } ∧
    (cmd_supersede c3Db "A" "A").isOk = true := by
  decide

theorem find?_decomp (studies : List Study) (old_id : String) (so : Study)
    (h : studies.find? (fun s => s.study_id == old_id) = some so) :
    ∃ pre post, studies = pre ++ so :: post ∧ (∀ x ∈ pre, x.study_id ≠ old_id) ∧
      so.study_id = old_id ∧
      ∀ new_id, updateFirstStudy studies old_id new_id =
        pre ++ { so with status := some "superseded", superseded_by := some new_id } :: post := by
  induction studies with
  | nil => simp at h
  | cons s rest ih =>
    rw [List.find?_cons] at h
    by_cases hs : s.study_id = old_id
    · have hb : (s.study_id == old_id) = true := beq_iff_eq.mpr hs
      simp only [hb] at h
      obtain rfl : s = so := by simpa using h
      exact ⟨[], rest, rfl, by simp, hs, fun new_id => by
        simp [updateFirstStudy, hs]⟩
    · have hb : (s.study_id == old_id) = false := beq_eq_false_iff_ne.mpr hs
      rw [hb] at h
      obtain ⟨pre, post, heq, hpre, hso, hupd⟩ := ih h
      exact ⟨s :: pre, post, by simp [heq], by
        intro x hx
        rcases List.mem_cons.mp hx with rfl | hx
        · exact hs
        · exact hpre x hx, hso, fun new_id => by
        simp [updateFirstStudy, hb, hupd new_id]⟩

/-- C3 (amended): `supersede` fails with `NotFound`, saving nothing, when
either id is absent; whenever *both* ids name existing studies — including
`supersede(A, A)`, which the code does not reject — it succeeds, setting the
first study with the old id to `status = "superseded"`,
`superseded_by = new_id`, and leaving every other record untouched. -/
theorem c3_supersede (db : Db) (old_id new_id : String) :
    (db.studies.find? (fun s => s.study_id == old_id) = none →
      cmd_supersede db old_id new_id = .error .oldNotFound) ∧
    (∀ so, db.studies.find? (fun s => s.study_id == old_id) = some so →
      db.studies.find? (fun s => s.study_id == new_id) = none →
      cmd_supersede db old_id new_id = .error .newNotFound) ∧
    (∀ so sn, db.studies.find? (fun s => s.study_id == old_id) = some so →
      db.studies.find? (fun s => s.study_id == new_id) = some sn →
      ∃ pre post, db.studies = pre ++ so :: post ∧
        (∀ x ∈ pre, x.study_id ≠ old_id) ∧ so.study_id = old_id ∧
        cmd_supersede db old_id new_id = .ok { db with studies :=
          pre ++ { so with status := some "superseded",
                           superseded_by := some new_id } :: post }) := by
  refine ⟨fun h => by simp [cmd_supersede, h], fun so hso hsn => by simp [cmd_supersede, hso, hsn],
          fun so sn hso hsn => ?_⟩
  obtain ⟨pre, post, heq, hpre, hid, hupd⟩ := find?_decomp db.studies old_id so hso
  exact ⟨pre, post, heq, hpre, hid, by simp [cmd_supersede, hso, hsn, hupd new_id]⟩

/-- Witness for C3's amended theorem: superseding `A` by the distinct existing
study `B`. -/
theorem c3_witness :
    ∃ pre post, c3Db2.studies = pre ++ c3A :: post ∧
      (∀ x ∈ pre, x.study_id ≠ "A") ∧ c3A.study_id = "A" ∧
      cmd_supersede c3Db2 "A" "B" = .ok { c3Db2 with studies :=
        pre ++ { c3A with status := some "superseded",
                          superseded_by := some "B" } :: post } :=
  (c3_supersede c3Db2 "A" "B").2.2 c3A c3B (by decide) (by decide)

/-- C5, counterexample: the claim says a study verified exactly at the
month-truncated cutoff is classified stale.  The comparison is strict
(`s['verified_date'] < cutoff`), so at the cutoff itself the study is *not*
listed. -/
theorem c5_counterexample :
    c5S ∈ c5Db.studies ∧ c5S.verified_date = some "2025-04" ∧
    cmd_stale c5Db "2025-04" = [] ∧ c5S ∉ cmd_stale c5Db "2025-04" := by
  decide

/-- C5 (amended): the stale report lists a study exactly when its
`verified_date` is missing, empty, or lexicographically *strictly* less than
the month-truncated cutoff; in particular a study verified at the cutoff month
itself, or any later month, is not listed. -/
theorem c5_stale_classification :
    (∀ db cutoff s, s ∈ cmd_stale db cutoff ↔
      s ∈ db.studies ∧ (s.verified_date = none ∨ s.verified_date = some "" ∨
        ∃ v, s.verified_date = some v ∧ v < cutoff)) ∧
    (∀ db cutoff s v, s.verified_date = some v → v ≠ "" → cutoff ≤ v →
      s ∉ cmd_stale db cutoff) := by
  have hmem : ∀ db cutoff s, s ∈ cmd_stale db cutoff ↔
      s ∈ db.studies ∧ (s.verified_date = none ∨ s.verified_date = some "" ∨
        ∃ v, s.verified_date = some v ∧ v < cutoff) := by
    intro db cutoff s
    unfold cmd_stale
    rw [(List.perm_insertionSort _ _).mem_iff, List.mem_filter]
    refine and_congr_right fun _ => ?_
    unfold isStale
    cases hv : s.verified_date with
    | none => simp
    | some v =>
      by_cases hv0 : v = ""
      · subst hv0; simp
      · simp [hv0, strLt_iff]
  refine ⟨hmem, fun db cutoff s v hv hv0 hle hmem' => ?_⟩
  rcases ((hmem db cutoff s).mp hmem').2 with h | h | ⟨w, hw, hlt⟩
  · rw [hv] at h; cases h
  · rw [hv] at h; exact hv0 (by simpa using h)
  · rw [hv] at hw
    obtain rfl : v = w := by simpa using hw
    exact absurd hlt (not_lt.mpr hle)

/-- Witness for C5's amended theorem: a study verified one month after the
cutoff is not listed, and the membership characterization at a stale study. -/
theorem c5_witness :
    (({ study_id := "t", verified_date := some "2025-05" } : Study) ∉
      cmd_stale { studies := [{ study_id := "t", verified_date := some "2025-05" }] } "2025-04") ∧
    (c5S ∈ cmd_stale c5Db "2025-03" ↔
      c5S ∈ c5Db.studies ∧ (c5S.verified_date = none ∨ c5S.verified_date = some "" ∨
        ∃ v, c5S.verified_date = some v ∧ v < "2025-03")) :=
  ⟨c5_stale_classification.2 _ "2025-04" _ "2025-05" rfl (by decide)
     ((strLe_iff "2025-04" "2025-05").mp (by decide)),
   c5_stale_classification.1 c5Db "2025-03" c5S⟩

/-- C9, counterexample: querying a claim id that has no linked studies
terminates with exit status 0, not the non-zero status the claim requires. -/
theorem c9_counterexample :
    (cmd_query c9Db "a→b" none).2 = 0 ∧
    find_studies_for_claim c9Db "a→b" none = [] ∧
    ¬ (cmd_query c9Db "a→b" none).2 ≠ 0 := by
  decide

/-- C9 (amended): `export-refs` exits non-zero exactly when no studies are
found and `supersede` exits non-zero exactly on a `NotFound`, but `query`
always exits 0 — a claim with no linked studies only gets a printed message. -/
theorem c9_exit_codes :
    (∀ db claim d, (cmd_query db claim d).2 = 0) ∧
    (∀ db claim, export_refs_rows db claim = [] → cmd_export_refs_exit db claim = 1) ∧
    (∀ db claim, export_refs_rows db claim ≠ [] → cmd_export_refs_exit db claim = 0) ∧
    (∀ db o n, cmd_supersede_exit db o n = 0 ↔ (cmd_supersede db o n).isOk = true) := by
  refine ⟨fun db claim d => ?_,
          fun db claim h => by simp [cmd_export_refs_exit, h],
          fun db claim h => by simp [cmd_export_refs_exit, List.isEmpty_iff, h],
          fun db o n => ?_⟩
  · unfold cmd_query
    split
    · dsimp only
      split <;> rfl
    · rfl
  · unfold cmd_supersede_exit
    cases cmd_supersede db o n <;> simp [Except.isOk, Except.toBool]

/-- Witness for C9's amended theorem. -/
theorem c9_witness :
    cmd_export_refs_exit { } "x→y" = 1 ∧ (cmd_query { } "x→y" none).2 = 0 ∧
    (cmd_supersede_exit c9Db2 "A" "B" = 0 ↔ (cmd_supersede c9Db2 "A" "B").isOk = true) :=
  ⟨c9_exit_codes.2.1 { } "x→y" (by decide), c9_exit_codes.1 { } "x→y" none,
   c9_exit_codes.2.2.2 c9Db2 "A" "B"⟩

/-- C8, counterexample: the resolved title (40 `y`s) is contained in the
expected title (30 `x`s + 40 `y`s), so the claim's rule says `title_match` is
true; the code truncates both normalizations to 60 characters before the
containment check, and on this pair returns `false`. -/
theorem c8_counterexample :
    title_match_claim c8E c8R = true ∧
    title_match_code (some c8E) c8R = some false := by
  decide

/-- C8 (amended): with a resolved title at hand, `title_match` is `null` when
no (non-empty) expected title was supplied, and otherwise is exactly the
claim's rule applied to the normalizations truncated to 60 characters. -/
theorem c8_title_match (e r : String) :
    title_match_code none r = none ∧
    title_match_code (some "") r = none ∧
    (e ≠ "" → title_match_code (some e) r = some (title_match_amended e r)) := by
  refine ⟨rfl, rfl, fun he => ?_⟩
  simp [title_match_code, he, title_match_amended]

/-- Witness for C8's amended theorem: the spec's round-trip fixture matches. -/
theorem c8_witness :
    title_match_code (some c8Expected) c8Resolved =
      some (title_match_amended c8Expected c8Resolved) ∧
    title_match_amended c8Expected c8Resolved = true :=
  ⟨(c8_title_match c8Expected c8Resolved).2.2 (by decide), by decide⟩

theorem qMul_eq (a b : ℚ) : qMul a b = a * b := by
  rw [qMul, Rat.mkRat_eq_div]
  push_cast
  rw [← div_mul_div_comm, Rat.num_div_den, Rat.num_div_den]

/-- C4, counterexample: with the DOI resolving fine, `cmd_add` inserts the
study although its DOI already belongs to an existing study — it does not
abort, and afterwards two studies share the non-null DOI `10.1/x`. -/
theorem c4_counterexample :
    (cmd_add c4Db c4Inp (some "T") false "2026-02" "ab12").isOk = true ∧
    ((cmd_add c4Db c4Inp (some "T") false "2026-02" "ab12").toOption.map
      (fun db' => (db'.studies.filter (fun s => s.doi == some "10.1/x")).length)) = some 2 ∧
    ((cmd_add c4Db c4Inp (some "T") false "2026-02" "ab12").toOption.map
      (fun db' => decide (DoiUnique db'))) = some false := by
  decide

theorem foldl_pres {α β : Type _} (f : β → α → β) (P : β → Prop)
    (hf : ∀ st a, P st → P (f st a)) : ∀ (l : List α) (st : β), P st → P (l.foldl f st) := by
  intro l
  induction l with
  | nil => exact fun _ h => h
  | cons a l ih => exact fun st h => ih _ (hf st a h)

theorem parse_score_mul (s : String) :
    (parse_score s).2.2 = (parse_score s).1 * (parse_score s).2.1 := by
  unfold parse_score
  split
  · norm_num
  · split
    · exact (mul_one _).symm
    · split
      · show _ = qMul _ 2 * mkRat 1 2
        rw [qMul_eq, Rat.mkRat_eq_div]
        push_cast
        ring
      · exact (mul_one _).symm

theorem addClaimsLinks_studies (sid : String) (tags : List String) (db : Db) :
    (addClaimsLinks sid tags db).studies = db.studies := by
  refine foldl_pres _ (fun d => d.studies = db.studies) ?_ tags db rfl
  intro acc tag hacc
  dsimp only
  split <;> exact hacc

theorem cmd_add_ok_shape (db : Db) (inp : AddInput) (res : Option String)
    (conf : Bool) (nm nonce : String) (db' : Db)
    (h : cmd_add db inp res conf nm nonce = .ok db') :
    ∃ title, db' = addClaimsLinks (make_study_id inp.authors inp.pub_year nonce)
      (parse_claim_tags_add inp.claims_raw)
      { db with studies := db.studies ++ [addStudyRec inp title nm nonce] } := by
  unfold cmd_add at h
  rcases hdoi : inp.doi with _ | d <;> simp only [hdoi] at h
  · exact ⟨inp.title, by simpa using h.symm⟩
  · split at h
    · exact absurd h (by simp)
    · rename_i title heq
      exact ⟨title, by simpa using h.symm⟩

theorem rowStudy_ok (uids : Nat → String) (st : ImportState) (cells : List String) :
    FinalScoreOK (rowStudy uids st cells) :=
  ⟨(parse_score (cells.getD 5 "")).2.1, Or.inl rfl, parse_score_mul _⟩

theorem importRowAdd_studies (uids : Nat → String) (st : ImportState)
    (cells : List String) :
    (importRowAdd uids st cells).db.studies = st.db.studies ++ [rowStudy uids st cells] := by
  unfold importRowAdd
  refine foldl_pres _ (fun (x : ImportState) =>
      x.db.studies = st.db.studies ++ [rowStudy uids st cells]) ?_ _ _ ?_
  · intro st' a h
    dsimp only
    exact h
  · refine foldl_pres _ (fun (x : ImportState) =>
        x.db.studies = st.db.studies ++ [rowStudy uids st cells]) ?_ _ _ ?_
    · intro st' tag h
      dsimp only
      split <;> split <;> simpa using h
    · rfl

theorem importStep_studies (uids : Nat → String) (st : ImportState) (line : String) :
    (importStep uids st line).db.studies = st.db.studies ∨
    ∃ s, FinalScoreOK s ∧ (importStep uids st line).db.studies = st.db.studies ++ [s] := by
  unfold importStep
  split
  · left
    unfold sectionUpdate
    split
    · rfl
    · split <;> rfl
  · split
    · left; rfl
    · split
      · left; rfl
      · split
        · left; rfl
        · split
          · left; rfl
          · unfold importRow
            split
            · left; rfl
            · exact Or.inr ⟨rowStudy uids st _, rowStudy_ok uids st _,
                importRowAdd_studies uids st _⟩

theorem vocabRow_studies (st : Db × List String) (line : String) :
    (vocabRow st line).1.studies = st.1.studies := by
  unfold vocabRow
  split
  · rfl
  · dsimp only
    split
    · split
      · rfl
      · rfl
    · rfl

theorem vocabPass_studies (lines : List String) :
    ∀ iv st, (vocabPass lines iv st).1.studies = st.1.studies := by
  induction lines with
  | nil => intro iv st; rfl
  | cons line rest ih =>
    intro iv st
    unfold vocabPass
    split
    · exact ih true st
    · split
      · rfl
      · split
        · exact (ih iv _).trans (vocabRow_studies st line)
        · exact ih iv st

theorem cmd_import_md_final_ok (uids : Nat → String) (db : Db) (lines : List String)
    (hdb : ∀ s ∈ db.studies, FinalScoreOK s) :
    ∀ s ∈ (cmd_import_md uids db lines).studies, FinalScoreOK s := by
  unfold cmd_import_md
  have hmain := foldl_pres (importStep uids) (fun st => ∀ s ∈ st.db.studies, FinalScoreOK s)
    (fun st line hst => by
      rcases importStep_studies uids st line with h | ⟨s, hok, h⟩
      · rw [h]; exact hst
      · rw [h]
        intro x hx
        rcases List.mem_append.mp hx with hx | hx
        · exact hst x hx
        · rw [List.mem_singleton.mp hx]; exact hok) lines
  refine hmain _ ?_
  show ∀ s ∈ (vocabPass lines false (db, db.claims.map (fun c => c.claim_id))).1.studies, _
  rw [vocabPass_studies]
  exact hdb

/-- C7: for every study present after any create/import operation,
`final_score = quality_score * relevance_mult` exactly — for each creation
path: `parse_score` always returns `final = quality * relevance`; `cmd_add`
appends a study with `final = quality * relevance` by construction; the
markdown and refs imports preserve the invariant over the whole snapshot
(refs studies have `quality = final = 0` and a `relevance` key of `1`). -/
theorem c7_final_score :
    (∀ s, (parse_score s).2.2 = (parse_score s).1 * (parse_score s).2.1) ∧
    (∀ db inp res conf nm nonce db', cmd_add db inp res conf nm nonce = .ok db' →
      (∀ s ∈ db.studies, FinalScoreOK s) → ∀ s ∈ db'.studies, FinalScoreOK s) ∧
    (∀ uids db lines, (∀ s ∈ db.studies, FinalScoreOK s) →
      ∀ s ∈ (cmd_import_md uids db lines).studies, FinalScoreOK s) ∧
    (∀ uids page nm nd db entries, (∀ s ∈ db.studies, FinalScoreOK s) →
      ∀ s ∈ (cmd_import_refs uids page nm nd db entries).studies, FinalScoreOK s) := by
  refine ⟨parse_score_mul, ?_, cmd_import_md_final_ok, ?_⟩
  · intro db inp res conf nm nonce db' h hdb
    obtain ⟨title, rfl⟩ := cmd_add_ok_shape db inp res conf nm nonce db' h
    rw [addClaimsLinks_studies]
    intro s hs
    rcases List.mem_append.mp hs with hs | hs
    · exact hdb s hs
    · rw [List.mem_singleton.mp hs]
      exact ⟨inp.relevance_mult, Or.inl rfl, qMul_eq _ _⟩
  · intro uids page nm nd db entries hdb
    unfold cmd_import_refs
    have := foldl_pres (β := Db × List String × Nat)
      (fun st e =>
        if e.doi.isSome && st.2.1.contains (e.doi.getD "") then st
        else
          (({ st.1 with studies :=
                st.1.studies ++ [refStudy uids st.2.2 page nm nd e] } : Db),
           (match e.doi with | some d => st.2.1 ++ [d] | none => st.2.1),
           st.2.2 + 1))
      (fun st => ∀ s ∈ st.1.studies, FinalScoreOK s)
      (fun st e hst => by
        dsimp only
        split
        · exact hst
        · intro x hx
          dsimp only at hx
          rcases List.mem_append.mp hx with hx | hx
          · exact hst x hx
          · rw [List.mem_singleton.mp hx]
            exact ⟨1, Or.inr ⟨rfl, rfl⟩, show (0:ℚ) = 0 * 1 by norm_num⟩) entries
    exact this _ hdb

/-- Witness for C7 at a concrete import. -/
theorem c7_witness :
    ∀ s ∈ (cmd_import_md fixU { } c7Lines).studies, FinalScoreOK s :=
  c7_final_score.2.2.1 fixU { } c7Lines (fun s hs => absurd hs (List.not_mem_nil s))

/-! ### C6 — idempotent markdown import: invariants and simulation -/
theorem contains_iff_mem {l : List String} {a : String} :
    l.contains a = true ↔ a ∈ l := by
  simp

theorem importRowAdd_control (uids : Nat → String) (st : ImportState)
    (cells : List String) :
    controlOf (importRowAdd uids st cells) = controlOf st := by
  unfold importRowAdd
  refine foldl_pres _ (fun (x : ImportState) => controlOf x = controlOf st) ?_ _ _ ?_
  · intro st' a h; dsimp only; exact h
  · refine foldl_pres _ (fun (x : ImportState) => controlOf x = controlOf st) ?_ _ _ ?_
    · intro st' tag h; dsimp only; split <;> split <;> simpa [controlOf] using h
    · rfl

theorem importStep_control (uids : Nat → String) (st : ImportState) (line : String) :
    controlOf (importStep uids st line) = ctrlStep (controlOf st) line := by
  unfold importStep ctrlStep
  cases hsec : sectionName line with
  | some name =>
    simp only
    unfold sectionUpdate
    cases hp : sectionToPage name with
    | some page => simp [controlOf]
    | none =>
      by_cases hr : strContains name "Removed" = true <;> simp [hr, controlOf]
  | none =>
    simp only
    split
    · rfl
    · split
      · rfl
      · split
        · rfl
        · split
          · rfl
          · unfold importRow
            split
            · rfl
            · exact importRowAdd_control uids st _

theorem sectionUpdate_data (st : ImportState) (name : String) :
    (sectionUpdate st name).db = st.db ∧
    (sectionUpdate st name).existingDois = st.existingDois ∧
    (sectionUpdate st name).existingClaims = st.existingClaims := by
  unfold sectionUpdate
  split
  · exact ⟨rfl, rfl, rfl⟩
  · split <;> exact ⟨rfl, rfl, rfl⟩

theorem importRowAdd_dois (uids : Nat → String) (st : ImportState)
    (cells : List String) :
    (importRowAdd uids st cells).existingDois =
      (match rowDoi cells with
       | some d => st.existingDois ++ [d]
       | none => st.existingDois) := by
  unfold importRowAdd
  refine foldl_pres _ (fun (x : ImportState) => x.existingDois = _) ?_ _ _ ?_
  · intro st' a h; dsimp only; exact h
  · refine foldl_pres _ (fun (x : ImportState) => x.existingDois = _) ?_ _ _ ?_
    · intro st' tag h; dsimp only; split <;> split <;> simpa using h
    · rfl

theorem importStep_dois_mono (uids : Nat → String) (st : ImportState) (line : String)
    (d : String) (hd : d ∈ st.existingDois) :
    d ∈ (importStep uids st line).existingDois := by
  unfold importStep
  split
  · exact ((sectionUpdate_data st _).2.1).symm ▸ hd
  · split
    · exact hd
    · split
      · exact hd
      · split
        · exact hd
        · split
          · exact hd
          · unfold importRow
            split
            · exact hd
            · rw [importRowAdd_dois]
              cases rowDoi _ with
              | some d' => exact List.mem_append_left _ hd
              | none => exact hd

theorem foldl_dois_mono (uids : Nat → String) (lines : List String) (st : ImportState)
    (d : String) (hd : d ∈ st.existingDois) :
    d ∈ (lines.foldl (importStep uids) st).existingDois :=
  foldl_pres _ (fun (x : ImportState) => d ∈ x.existingDois)
    (fun st' line h => importStep_dois_mono uids st' line d h) lines st hd

theorem importRowAdd_ec_mono (uids : Nat → String) (st : ImportState)
    (cells : List String) (t : String) (ht : t ∈ st.existingClaims) :
    t ∈ (importRowAdd uids st cells).existingClaims := by
  unfold importRowAdd
  refine foldl_pres _ (fun (x : ImportState) => t ∈ x.existingClaims) ?_ _ _ ?_
  · intro st' a h; dsimp only; exact h
  · refine foldl_pres _ (fun (x : ImportState) => t ∈ x.existingClaims) ?_ _ _ ?_
    · intro st' tag h
      dsimp only
      split
      · split
        · exact h
        · exact h
      · split
        · exact List.mem_append_left _ h
        · exact List.mem_append_left _ h
    · exact ht

theorem importStep_ec_mono (uids : Nat → String) (st : ImportState) (line : String)
    (t : String) (ht : t ∈ st.existingClaims) :
    t ∈ (importStep uids st line).existingClaims := by
  unfold importStep
  split
  · exact ((sectionUpdate_data st _).2.2).symm ▸ ht
  · split
    · exact ht
    · split
      · exact ht
      · split
        · exact ht
        · split
          · exact ht
          · unfold importRow
            split
            · exact ht
            · exact importRowAdd_ec_mono uids st _ t ht

theorem foldl_ec_mono (uids : Nat → String) (lines : List String) (st : ImportState)
    (t : String) (ht : t ∈ st.existingClaims) :
    t ∈ (lines.foldl (importStep uids) st).existingClaims :=
  foldl_pres _ (fun (x : ImportState) => t ∈ x.existingClaims)
    (fun st' line h => importStep_ec_mono uids st' line t h) lines st ht

theorem strStartsWith_ne_empty {d p : String} (hp : p ≠ "")
    (h : strStartsWith d p = true) : d ≠ "" := by
  intro h0
  subst h0
  cases hpc : p.data with
  | nil => exact hp (by cases p; simpa [String.mk] using congrArg String.mk hpc)
  | cons a as => rw [strStartsWith, hpc] at h; cases h

theorem rowDoi_ne_empty {cells : List String} {d : String}
    (h : rowDoi cells = some d) : d ≠ "" := by
  unfold rowDoi at h
  split at h
  · next hs =>
    obtain rfl : cells.getD 2 "" = d := by simpa using h
    exact strStartsWith_ne_empty (by decide) hs
  · exact absurd h (by simp)

theorem doiTruthy_rowStudy (uids : Nat → String) (st : ImportState)
    (cells : List String) :
    doiTruthy (rowStudy uids st cells) = rowDoi cells := by
  show (match rowDoi cells with
        | some d => if d = "" then none else some d
        | none => none) = rowDoi cells
  cases h : rowDoi cells with
  | none => rfl
  | some d => simp [rowDoi_ne_empty h]

theorem importRowAdd_ecinv (uids : Nat → String) (st : ImportState)
    (cells : List String) (hst : ECInv st) : ECInv (importRowAdd uids st cells) := by
  unfold importRowAdd
  refine foldl_pres _ ECInv ?_ _ _ ?_
  · intro st' a h
    dsimp only
    intro t
    exact h t
  · refine foldl_pres _ ECInv ?_ _ _ ?_
    · intro st' tag h
      dsimp only
      split
      · split
        · exact h
        · intro t; exact h t
      · split
        · intro t
          simp only [List.map_append, List.mem_append, List.mem_singleton,
            List.map_cons, List.map_nil, List.mem_cons, List.not_mem_nil, or_false]
          exact or_congr (h t) (by simp [mkClaimRec])
        · intro t
          simp only [List.map_append, List.mem_append, List.mem_singleton,
            List.map_cons, List.map_nil, List.mem_cons, List.not_mem_nil, or_false]
          exact or_congr (h t) (by simp [mkClaimRec])
    · intro t
      exact hst t

theorem importStep_ecinv (uids : Nat → String) (st : ImportState) (line : String)
    (hst : ECInv st) : ECInv (importStep uids st line) := by
  unfold importStep
  split
  · intro t
    rw [(sectionUpdate_data st _).2.2, (sectionUpdate_data st _).1]
    exact hst t
  · split
    · exact hst
    · split
      · exact hst
      · split
        · exact hst
        · split
          · exact hst
          · unfold importRow
            split
            · exact hst
            · exact importRowAdd_ecinv uids st _ hst

theorem importRowAdd_doisinv (uids : Nat → String) (st : ImportState)
    (cells : List String) (hst : DoisInv st) : DoisInv (importRowAdd uids st cells) := by
  have hdois := importRowAdd_dois uids st cells
  have hstud := importRowAdd_studies uids st cells
  intro d
  rw [hdois, hstud, List.filterMap_append]
  cases h : rowDoi cells with
  | none =>
    simp only [List.mem_append]
    rw [List.filterMap_cons, doiTruthy_rowStudy, h]
    simpa using hst d
  | some d' =>
    simp only [List.mem_append]
    rw [List.filterMap_cons, doiTruthy_rowStudy, h]
    simp only [List.filterMap_nil, List.mem_cons, List.not_mem_nil, or_false,
      List.mem_singleton]
    exact or_congr (hst d) Iff.rfl

theorem importStep_doisinv (uids : Nat → String) (st : ImportState) (line : String)
    (hst : DoisInv st) : DoisInv (importStep uids st line) := by
  unfold importStep
  split
  · intro d
    rw [(sectionUpdate_data st _).2.1, (sectionUpdate_data st _).1]
    exact hst d
  · split
    · exact hst
    · split
      · exact hst
      · split
        · exact hst
        · split
          · exact hst
          · unfold importRow
            split
            · exact hst
            · exact importRowAdd_doisinv uids st _ hst

theorem vocabPass_cons (line : String) (rest : List String) (iv : Bool)
    (st : Db × List String) :
    vocabPass (line :: rest) iv st =
      if strContains line "## Claim Tag Vocabulary" then vocabPass rest true st
      else if iv && strStartsWith line "## " then st
      else if iv && strStartsWith line "|" then vocabPass rest iv (vocabRow st line)
      else vocabPass rest iv st := rfl

theorem vocabRow_ec_mono (st : Db × List String) (line : String) (t : String)
    (ht : t ∈ st.2) : t ∈ (vocabRow st line).2 := by
  unfold vocabRow
  split
  · exact ht
  · dsimp only
    split
    · split
      · exact List.mem_append_left _ ht
      · exact ht
    · exact ht

theorem vocabPass_ec_mono : ∀ (lines : List String) (iv : Bool)
    (st : Db × List String) (t : String), t ∈ st.2 → t ∈ (vocabPass lines iv st).2 := by
  intro lines
  induction lines with
  | nil => exact fun iv st t ht => ht
  | cons line rest ih =>
    intro iv st t ht
    rw [vocabPass_cons]
    split
    · exact ih true st t ht
    · split
      · exact ht
      · split
        · exact ih iv _ t (vocabRow_ec_mono st line t ht)
        · exact ih iv st t ht

theorem vocabRow_ecinv (st : Db × List String) (line : String)
    (h : ∀ t, t ∈ st.2 ↔ t ∈ st.1.claims.map (fun c => c.claim_id)) :
    ∀ t, t ∈ (vocabRow st line).2 ↔
      t ∈ (vocabRow st line).1.claims.map (fun c => c.claim_id) := by
  unfold vocabRow
  split
  · exact h
  · dsimp only
    split
    · split
      · intro t
        simp only [List.map_append, List.mem_append, List.mem_singleton,
          List.map_cons, List.map_nil, List.mem_cons, List.not_mem_nil, or_false]
        exact or_congr (h t) (by simp [mkClaimRec])
      · exact h
    · exact h

theorem vocabPass_ecinv : ∀ (lines : List String) (iv : Bool) (st : Db × List String),
    (∀ t, t ∈ st.2 ↔ t ∈ st.1.claims.map (fun c => c.claim_id)) →
    ∀ t, t ∈ (vocabPass lines iv st).2 ↔
      t ∈ (vocabPass lines iv st).1.claims.map (fun c => c.claim_id) := by
  intro lines
  induction lines with
  | nil => exact fun iv st h => h
  | cons line rest ih =>
    intro iv st h
    rw [vocabPass_cons]
    split
    · exact ih true st h
    · split
      · exact h
      · split
        · exact ih iv _ (vocabRow_ecinv st line h)
        · exact ih iv st h

theorem vocabRow_eq_self (st : Db × List String) (line : String)
    (h : ∀ cells, tableRowCells line = some cells → cells.length ≥ 2 →
      strContains (pyStripChar '`' (pyStrip (cells.headD ""))) "→" = true →
      pyStripChar '`' (pyStrip (cells.headD "")) ≠ "Tag" →
      pyStripChar '`' (pyStrip (cells.headD "")) ∈ st.2) :
    vocabRow st line = st := by
  unfold vocabRow
  split
  · rfl
  · next cells hc =>
    dsimp only
    split
    · next hlen =>
      split
      · next hcond =>
        exfalso
        simp only [Bool.and_eq_true, Bool.not_eq_true', decide_eq_true_eq] at hcond
        rcases hcond with ⟨⟨hq1, hq2⟩, hq3⟩
        have hmem := h cells hc hlen hq1 hq2
        rw [← contains_iff_mem] at hmem
        rw [hmem] at hq3
        simp at hq3
      · rfl
    · rfl

theorem vocabRow_tag_mem (st : Db × List String) (line : String) (cells : List String)
    (hc : tableRowCells line = some cells) (hlen : cells.length ≥ 2)
    (h1 : strContains (pyStripChar '`' (pyStrip (cells.headD ""))) "→" = true)
    (h2 : pyStripChar '`' (pyStrip (cells.headD "")) ≠ "Tag") :
    pyStripChar '`' (pyStrip (cells.headD "")) ∈ (vocabRow st line).2 := by
  unfold vocabRow
  rw [hc]
  dsimp only
  rw [if_pos hlen]
  by_cases hm : st.2.contains (pyStripChar '`' (pyStrip (cells.headD ""))) = true
  · have hcond : (strContains (pyStripChar '`' (pyStrip (cells.headD ""))) "→" &&
        decide (pyStripChar '`' (pyStrip (cells.headD "")) ≠ "Tag") &&
        !st.2.contains (pyStripChar '`' (pyStrip (cells.headD "")))) = false := by
      rw [hm]
      simp
    rw [hcond]
    simp only [Bool.false_eq_true, if_false]
    exact contains_iff_mem.mp hm
  · have hcond : (strContains (pyStripChar '`' (pyStrip (cells.headD ""))) "→" &&
        decide (pyStripChar '`' (pyStrip (cells.headD "")) ≠ "Tag") &&
        !st.2.contains (pyStripChar '`' (pyStrip (cells.headD "")))) = true := by
      have hcf : st.2.contains (pyStripChar '`' (pyStrip (cells.headD ""))) = false :=
        (Bool.not_eq_true _) ▸ hm
      rw [hcf]
      simp
      exact ⟨by simpa using h1, by simpa using h2⟩
    rw [hcond]
    simp only [if_true]
    exact List.mem_append_right _ (List.mem_singleton.mpr rfl)

theorem vocabPass_sim : ∀ (lines : List String) (iv : Bool)
    (st1 st2 : Db × List String),
    (∀ t, t ∈ (vocabPass lines iv st1).2 → t ∈ st2.2) →
    vocabPass lines iv st2 = st2 := by
  intro lines
  induction lines with
  | nil => intro iv st1 st2 _; rfl
  | cons line rest ih =>
    intro iv st1 st2 hsub
    rw [vocabPass_cons] at hsub ⊢
    by_cases h1 : strContains line "## Claim Tag Vocabulary" = true
    · rw [if_pos h1] at hsub ⊢
      exact ih true st1 st2 hsub
    · rw [if_neg h1] at hsub ⊢
      by_cases h2 : (iv && strStartsWith line "## ") = true
      · rw [if_pos h2]
      · rw [if_neg h2] at hsub ⊢
        by_cases h3 : (iv && strStartsWith line "|") = true
        · rw [if_pos h3] at hsub ⊢
          have hrow : vocabRow st2 line = st2 := by
            refine vocabRow_eq_self st2 line (fun cells hc hlen hq1 hq2 => ?_)
            exact hsub _ (vocabPass_ec_mono rest iv _ _
              (vocabRow_tag_mem st1 line cells hc hlen hq1 hq2))
          rw [hrow]
          exact ih iv (vocabRow st1 line) st2 hsub
        · rw [if_neg h3] at hsub ⊢
          exact ih iv st1 st2 hsub

theorem rowDoiOk_row (line : String) (cells : List String)
    (hcells : tableRowCells line = some cells) :
    rowDoiOk line =
      if cells.isEmpty || strStartsWith (cells.headD "") "---" || cells.headD "" == "Study"
      then true
      else if cells.length < 12 then true
      else (rowDoi cells).isSome := by
  unfold rowDoiOk
  rw [hcells]

theorem importStep_cons_none (uids : Nat → String) (st : ImportState) (line : String)
    (hsec : sectionName line = none) :
    importStep uids st line =
      if !strStartsWith line "|" || st.inRemoved || st.currentSection.isNone then st
      else
        match tableRowCells line with
        | none => st
        | some cells =>
          if cells.isEmpty || strStartsWith (cells.headD "") "---" || cells.headD "" == "Study"
          then st
          else if cells.length < 12 then st
          else importRow uids st cells := by
  unfold importStep
  rw [hsec]

theorem importStep_cons_some (uids : Nat → String) (st : ImportState) (line name : String)
    (hsec : sectionName line = some name) :
    importStep uids st line = sectionUpdate st name := by
  unfold importStep
  rw [hsec]

theorem importStep_cons_row (uids : Nat → String) (st : ImportState)
    (line : String) (cells : List String)
    (hsec : sectionName line = none)
    (hg : (!strStartsWith line "|" || st.inRemoved || st.currentSection.isNone) = false)
    (hcells : tableRowCells line = some cells) :
    importStep uids st line =
      if cells.isEmpty || strStartsWith (cells.headD "") "---" || cells.headD "" == "Study"
      then st
      else if cells.length < 12 then st
      else importRow uids st cells := by
  unfold importStep
  rw [hsec, hg, hcells]
  rfl

theorem studyPass_sim (uids uids' : Nat → String) :
    ∀ (lines : List String) (st1 st2 : ImportState),
      (∀ l ∈ lines, rowDoiOk l = true) →
      controlOf st2 = controlOf st1 →
      (∀ d, d ∈ (lines.foldl (importStep uids) st1).existingDois →
        d ∈ st2.existingDois) →
      (lines.foldl (importStep uids') st2).db = st2.db ∧
      (lines.foldl (importStep uids') st2).existingDois = st2.existingDois ∧
      (lines.foldl (importStep uids') st2).existingClaims = st2.existingClaims := by
  intro lines
  induction lines with
  | nil => intro st1 st2 _ _ _; exact ⟨rfl, rfl, rfl⟩
  | cons line rest ih =>
    intro st1 st2 hok hctrl hsub
    rw [List.foldl_cons] at hsub ⊢
    have hctrl' : controlOf (importStep uids' st2 line) =
        controlOf (importStep uids st1 line) := by
      rw [importStep_control, importStep_control, hctrl]
    have hrem : st2.inRemoved = st1.inRemoved := congrArg (fun c => c.2.2) hctrl
    have hcs : st2.currentSection = st1.currentSection := congrArg (fun c => c.1) hctrl
    have key : (importStep uids' st2 line).db = st2.db ∧
        (importStep uids' st2 line).existingDois = st2.existingDois ∧
        (importStep uids' st2 line).existingClaims = st2.existingClaims := by
      cases hsec : sectionName line with
      | some name =>
        rw [importStep_cons_some uids' st2 line name hsec]
        exact sectionUpdate_data st2 name
      | none =>
        by_cases hg : (!strStartsWith line "|" || st2.inRemoved ||
            st2.currentSection.isNone) = true
        · rw [importStep_cons_none uids' st2 line hsec, if_pos hg]
          exact ⟨rfl, rfl, rfl⟩
        · have hgf : (!strStartsWith line "|" || st2.inRemoved ||
              st2.currentSection.isNone) = false := (Bool.not_eq_true _) ▸ hg
          cases hcells : tableRowCells line with
          | none =>
            rw [importStep_cons_none uids' st2 line hsec, hgf, hcells]
            exact ⟨rfl, rfl, rfl⟩
          | some cells =>
            rw [importStep_cons_row uids' st2 line cells hsec hgf hcells]
            by_cases hhdr : (cells.isEmpty || strStartsWith (cells.headD "") "---" ||
                cells.headD "" == "Study") = true
            · rw [if_pos hhdr]
              exact ⟨rfl, rfl, rfl⟩
            · rw [if_neg hhdr]
              by_cases hlen : cells.length < 12
              · rw [if_pos hlen]
                exact ⟨rfl, rfl, rfl⟩
              · rw [if_neg hlen]
                -- the row is a data row; by hypothesis it carries a DOI
                have hdok := hok line (List.mem_cons_self line rest)
                rw [rowDoiOk_row line cells hcells] at hdok
                rw [if_neg hhdr] at hdok
                rw [if_neg hlen] at hdok
                obtain ⟨d, hd⟩ := Option.isSome_iff_exists.mp hdok
                -- the first run leaves the DOI in its set
                have hg1 : (!strStartsWith line "|" || st1.inRemoved ||
                    st1.currentSection.isNone) = false := by
                  rw [← hrem, ← hcs]
                  exact hgf
                have hd1 : d ∈ (importStep uids st1 line).existingDois := by
                  rw [importStep_cons_row uids st1 line cells hsec hg1 hcells]
                  rw [if_neg hhdr, if_neg hlen]
                  unfold importRow
                  by_cases hsk : st1.existingDois.contains d = true
                  · rw [if_pos (by rw [hd]; simpa using hsk)]
                    exact contains_iff_mem.mp hsk
                  · rw [if_neg (by rw [hd]; simpa using hsk)]
                    rw [importRowAdd_dois, hd]
                    exact List.mem_append_right _ (List.mem_singleton.mpr rfl)
                have hd2 : d ∈ st2.existingDois :=
                  hsub d (foldl_dois_mono uids rest _ d hd1)
                unfold importRow
                rw [if_pos (by rw [hd]; simpa using contains_iff_mem.mpr hd2)]
                exact ⟨rfl, rfl, rfl⟩
    obtain ⟨k1, k2, k3⟩ := key
    have hres := ih (importStep uids st1 line) (importStep uids' st2 line)
      (fun l hl => hok l (List.mem_cons_of_mem _ hl))
      hctrl'
      (fun d hd => k2 ▸ hsub d hd)
    exact ⟨hres.1.trans k1, hres.2.1.trans k2, hres.2.2.trans k3⟩

theorem rowStudy_doi (uids : Nat → String) (st : ImportState) (cells : List String) :
    (rowStudy uids st cells).doi = rowDoi cells := rfl

theorem cmd_import_md_idem (uids uids' : Nat → String) (db : Db) (lines : List String)
    (hok : ∀ l ∈ lines, rowDoiOk l = true) :
    cmd_import_md uids' (cmd_import_md uids db lines) lines = cmd_import_md uids db lines := by
  have hecinv0 : ECInv
      { db := (vocabPass lines false (db, db.claims.map (fun c => c.claim_id))).1,
        existingDois := db.studies.filterMap doiTruthy,
        existingClaims := (vocabPass lines false (db, db.claims.map (fun c => c.claim_id))).2 } := by
    intro t
    exact vocabPass_ecinv lines false (db, db.claims.map (fun c => c.claim_id))
      (fun _ => Iff.rfl) t
  have hdinv0 : DoisInv
      { db := (vocabPass lines false (db, db.claims.map (fun c => c.claim_id))).1,
        existingDois := db.studies.filterMap doiTruthy,
        existingClaims := (vocabPass lines false (db, db.claims.map (fun c => c.claim_id))).2 } := by
    intro d
    show d ∈ db.studies.filterMap doiTruthy ↔
      d ∈ ((vocabPass lines false (db, db.claims.map (fun c => c.claim_id))).1.studies.filterMap
        doiTruthy)
    rw [vocabPass_studies lines false (db, db.claims.map (fun c => c.claim_id))]
  have hecinvF := foldl_pres (importStep uids) ECInv
    (fun st line h => importStep_ecinv uids st line h) lines _ hecinv0
  have hdinvF := foldl_pres (importStep uids) DoisInv
    (fun st line h => importStep_doisinv uids st line h) lines _ hdinv0
  have hv2 := vocabPass_sim lines false (db, db.claims.map (fun c => c.claim_id))
    ((lines.foldl (importStep uids)
        { db := (vocabPass lines false (db, db.claims.map (fun c => c.claim_id))).1,
          existingDois := db.studies.filterMap doiTruthy,
          existingClaims := (vocabPass lines false (db, db.claims.map (fun c => c.claim_id))).2 }).db,
     (lines.foldl (importStep uids)
        { db := (vocabPass lines false (db, db.claims.map (fun c => c.claim_id))).1,
          existingDois := db.studies.filterMap doiTruthy,
          existingClaims := (vocabPass lines false (db, db.claims.map (fun c => c.claim_id))).2 }).db.claims.map
       (fun c => c.claim_id))
    (fun t ht => (hecinvF t).mp (foldl_ec_mono uids lines _ t ht))
  have hsim := studyPass_sim uids uids' lines
    { db := (vocabPass lines false (db, db.claims.map (fun c => c.claim_id))).1,
      existingDois := db.studies.filterMap doiTruthy,
      existingClaims := (vocabPass lines false (db, db.claims.map (fun c => c.claim_id))).2 }
    { db := (lines.foldl (importStep uids)
        { db := (vocabPass lines false (db, db.claims.map (fun c => c.claim_id))).1,
          existingDois := db.studies.filterMap doiTruthy,
          existingClaims := (vocabPass lines false (db, db.claims.map (fun c => c.claim_id))).2 }).db,
      existingDois := (lines.foldl (importStep uids)
        { db := (vocabPass lines false (db, db.claims.map (fun c => c.claim_id))).1,
          existingDois := db.studies.filterMap doiTruthy,
          existingClaims := (vocabPass lines false (db, db.claims.map (fun c => c.claim_id))).2 }).db.studies.filterMap
        doiTruthy,
      existingClaims := (lines.foldl (importStep uids)
        { db := (vocabPass lines false (db, db.claims.map (fun c => c.claim_id))).1,
          existingDois := db.studies.filterMap doiTruthy,
          existingClaims := (vocabPass lines false (db, db.claims.map (fun c => c.claim_id))).2 }).db.claims.map
        (fun c => c.claim_id) }
    hok rfl (fun d hd => (hdinvF d).mp hd)
  show (lines.foldl (importStep uids')
      { db := (vocabPass lines false ((lines.foldl (importStep uids)
          { db := (vocabPass lines false (db, db.claims.map (fun c => c.claim_id))).1,
            existingDois := db.studies.filterMap doiTruthy,
            existingClaims := (vocabPass lines false (db, db.claims.map (fun c => c.claim_id))).2 }).db,
          (lines.foldl (importStep uids)
          { db := (vocabPass lines false (db, db.claims.map (fun c => c.claim_id))).1,
            existingDois := db.studies.filterMap doiTruthy,
            existingClaims := (vocabPass lines false (db, db.claims.map (fun c => c.claim_id))).2 }).db.claims.map
            (fun c => c.claim_id))).1,
        existingDois := (lines.foldl (importStep uids)
          { db := (vocabPass lines false (db, db.claims.map (fun c => c.claim_id))).1,
            existingDois := db.studies.filterMap doiTruthy,
            existingClaims := (vocabPass lines false (db, db.claims.map (fun c => c.claim_id))).2 }).db.studies.filterMap
          doiTruthy,
        existingClaims := (vocabPass lines false ((lines.foldl (importStep uids)
          { db := (vocabPass lines false (db, db.claims.map (fun c => c.claim_id))).1,
            existingDois := db.studies.filterMap doiTruthy,
            existingClaims := (vocabPass lines false (db, db.claims.map (fun c => c.claim_id))).2 }).db,
          (lines.foldl (importStep uids)
          { db := (vocabPass lines false (db, db.claims.map (fun c => c.claim_id))).1,
            existingDois := db.studies.filterMap doiTruthy,
            existingClaims := (vocabPass lines false (db, db.claims.map (fun c => c.claim_id))).2 }).db.claims.map
            (fun c => c.claim_id))).2 }).db =
    (lines.foldl (importStep uids)
      { db := (vocabPass lines false (db, db.claims.map (fun c => c.claim_id))).1,
        existingDois := db.studies.filterMap doiTruthy,
        existingClaims := (vocabPass lines false (db, db.claims.map (fun c => c.claim_id))).2 }).db
  rw [hv2]
  exact hsim.1

/-- C6 (amended): a row whose DOI already exists in the store is skipped
entirely before any record is created; consequently, when every data row of
the table carries a DOI, importing the same markdown lines twice adds no
studies, links, claims or usage records on the second run (the resulting
snapshot is identical).  Rows without a DOI are outside this guarantee — the
code re-imports them on every run. -/
theorem c6_import_idempotent :
    (∀ uids st cells d, rowDoi cells = some d → d ∈ st.existingDois →
      importRow uids st cells = st) ∧
    (∀ uids uids' db lines, (∀ l ∈ lines, rowDoiOk l = true) →
      cmd_import_md uids' (cmd_import_md uids db lines) lines =
        cmd_import_md uids db lines) := by
  refine ⟨?_, fun uids uids' db lines hok => cmd_import_md_idem uids uids' db lines hok⟩
  intro uids st cells d hd hmem
  unfold importRow
  rw [if_pos (by rw [hd]; simpa using contains_iff_mem.mpr hmem)]

/-- C6, counterexample: importing the same markdown table twice is *not* a
no-op in general — a data row without a DOI is re-imported on the second run,
duplicating its study and its study↔claim link. -/
theorem c6_counterexample :
    (cmd_import_md fixU { } c6Lines).studies.length = 1 ∧
    (cmd_import_md fixU2 (cmd_import_md fixU { } c6Lines) c6Lines).studies.length = 2 ∧
    (cmd_import_md fixU { } c6Lines).study_claims.length = 1 ∧
    (cmd_import_md fixU2 (cmd_import_md fixU { } c6Lines) c6Lines).study_claims.length = 2 := by
  decide

/-- Witness for C6's amended theorem at a concrete all-DOI table. -/
theorem c6_witness :
    cmd_import_md fixU (cmd_import_md fixU { } c6DLines) c6DLines =
      cmd_import_md fixU { } c6DLines :=
  c6_import_idempotent.2 fixU fixU { } c6DLines (by decide)

/-! ### C4 — DOI uniqueness across create/import operations -/
theorem importStep_doiUnique (uids : Nat → String) (st : ImportState) (line : String)
    (h1 : DoiUnique st.db) (h2 : DoisInv st) :
    DoiUnique (importStep uids st line).db := by
  unfold importStep
  split
  · unfold DoiUnique
    rw [(sectionUpdate_data st _).1]
    exact h1
  · split
    · exact h1
    · split
      · exact h1
      · split
        · exact h1
        · split
          · exact h1
          · unfold importRow
            split
            · exact h1
            · next hskip =>
              rename_i x0 cells hcells hh1 hh2
              unfold DoiUnique
              rw [importRowAdd_studies, List.pairwise_append]
              refine ⟨h1, by simp, ?_⟩
              intro a ha b hb
              rw [List.mem_singleton.mp hb]
              cases hdoi : rowDoi cells with
              | none =>
                cases hai : a.doi with
                | none => exact Or.inl rfl
                | some e =>
                  right
                  rw [rowStudy_doi, hdoi]
                  simp
              | some d =>
                right
                intro hcon
                rw [rowStudy_doi, hdoi] at hcon
                have hd0 : d ≠ "" := rowDoi_ne_empty hdoi
                have hmd : d ∈ st.db.studies.filterMap doiTruthy :=
                  List.mem_filterMap.mpr ⟨a, ha, by simp [doiTruthy, hcon, hd0]⟩
                have hms : d ∈ st.existingDois := (h2 d).mpr hmd
                rw [← contains_iff_mem] at hms
                exact hskip (by rw [hdoi]; simpa using hms)

theorem cmd_import_md_doiUnique (uids : Nat → String) (db : Db) (lines : List String)
    (h : DoiUnique db) : DoiUnique (cmd_import_md uids db lines) := by
  have hdinv0 : DoisInv
      { db := (vocabPass lines false (db, db.claims.map (fun c => c.claim_id))).1,
        existingDois := db.studies.filterMap doiTruthy,
        existingClaims := (vocabPass lines false (db, db.claims.map (fun c => c.claim_id))).2 } := by
    intro d
    show d ∈ db.studies.filterMap doiTruthy ↔
      d ∈ ((vocabPass lines false (db, db.claims.map (fun c => c.claim_id))).1.studies.filterMap
        doiTruthy)
    rw [vocabPass_studies lines false (db, db.claims.map (fun c => c.claim_id))]
  have h0 : DoiUnique
      (vocabPass lines false (db, db.claims.map (fun c => c.claim_id))).1 := by
    unfold DoiUnique
    rw [vocabPass_studies lines false (db, db.claims.map (fun c => c.claim_id))]
    exact h
  have := foldl_pres (importStep uids)
    (fun (st : ImportState) => DoiUnique st.db ∧ DoisInv st)
    (fun st line hp => ⟨importStep_doiUnique uids st line hp.1 hp.2,
                        importStep_doisinv uids st line hp.2⟩)
    lines
    { db := (vocabPass lines false (db, db.claims.map (fun c => c.claim_id))).1,
      existingDois := db.studies.filterMap doiTruthy,
      existingClaims := (vocabPass lines false (db, db.claims.map (fun c => c.claim_id))).2 }
    ⟨h0, hdinv0⟩
  exact this.1

/-- C4 (amended): the markdown import preserves DOI uniqueness — a row whose
DOI already belongs to a study is skipped — but the interactive add operation
performs *no* duplicate-DOI check: whenever the gate passes it appends its
study (with the entered DOI) unconditionally, even when that DOI already
belongs to an existing study. -/
theorem c4_doi_uniqueness :
    (∀ uids db lines, DoiUnique db → DoiUnique (cmd_import_md uids db lines)) ∧
    (∀ db inp res conf nm nonce db', cmd_add db inp res conf nm nonce = .ok db' →
      ∃ title, db'.studies = db.studies ++ [addStudyRec inp title nm nonce] ∧
        (addStudyRec inp title nm nonce).doi = inp.doi) := by
  refine ⟨fun uids db lines h => cmd_import_md_doiUnique uids db lines h, ?_⟩
  intro db inp res conf nm nonce db' h
  obtain ⟨title, rfl⟩ := cmd_add_ok_shape db inp res conf nm nonce db' h
  exact ⟨title, by rw [addClaimsLinks_studies], rfl⟩

/-- Witness for C4's amended theorem: uniqueness is preserved on a
concrete import from the empty store. -/
theorem c4_witness : DoiUnique (cmd_import_md fixU { } c7Lines) :=
  c4_doi_uniqueness.1 fixU { } c7Lines (by decide)

theorem skipWs_app {w cs : List Char} (h : ∀ c ∈ w, wsChar c = true) :
    skipWs (w ++ cs) = skipWs cs := by
  induction w with
  | nil => rfl
  | cons c t ih =>
    rw [List.cons_append, skipWs, if_pos (h c (by simp))]
    exact ih (fun d hd => h d (by simp [hd]))

theorem skipWs_cons {c : Char} {r : List Char} (h : wsChar c = false) :
    skipWs (c :: r) = c :: r := by
  rw [skipWs, if_neg (by simp [h])]

theorem pad_ws (L : Nat) : ∀ c ∈ pad L, wsChar c = true := by
  intro c hc
  rw [pad, List.mem_replicate] at hc
  rw [hc.2]
  decide

theorem nlPad_ws (L : Nat) : ∀ c ∈ '\n' :: pad L, wsChar c = true := by
  intro c hc
  rcases List.mem_cons.mp hc with rfl | hc
  · decide
  · exact pad_ws L c hc

theorem charVal_digitChar : ∀ d < 10, charVal (digitChar d) = d := by decide

theorem isDigit_digitChar : ∀ d < 10, (digitChar d).isDigit = true := by decide

theorem digit_ne {c X : Char} (h : c.isDigit = true) (hX : X.isDigit = false) : c ≠ X := by
  intro he
  subst he
  rw [h] at hX
  cases hX

theorem digit_not_ws {c : Char} (h : c.isDigit = true) : wsChar c = false := by
  unfold wsChar
  by_cases h1 : c = ' '
  · exact absurd h (by rw [h1]; decide)
  · by_cases h2 : c = '\t'
    · exact absurd h (by rw [h2]; decide)
    · by_cases h3 : c = '\n'
      · exact absurd h (by rw [h3]; decide)
      · by_cases h4 : c = '\r'
        · exact absurd h (by rw [h4]; decide)
        · simp [h1, h2, h3, h4]

theorem ws_not_digit_dot {c : Char} (h : wsChar c = true) : c.isDigit = false ∧ c ≠ '.' := by
  unfold wsChar at h
  simp only [Bool.or_eq_true, decide_eq_true_eq] at h
  rcases h with ((rfl | rfl) | rfl) | rfl <;> exact ⟨by decide, by decide⟩

theorem natCharsAux_digits : ∀ (fuel n : Nat), ∀ c ∈ natCharsAux fuel n, c.isDigit = true := by
  intro fuel
  induction fuel with
  | zero => intro n c hc; simp [natCharsAux] at hc
  | succ f ih =>
    intro n c hc
    rw [natCharsAux] at hc
    split at hc
    · next h =>
      rw [List.mem_singleton] at hc
      subst hc
      exact isDigit_digitChar n h
    · next h =>
      rcases List.mem_append.mp hc with hc | hc
      · exact ih _ c hc
      · rw [List.mem_singleton] at hc
        subst hc
        exact isDigit_digitChar _ (Nat.mod_lt _ (by norm_num))

theorem natCharsAux_ne_nil : ∀ (fuel n : Nat), fuel ≠ 0 → natCharsAux fuel n ≠ [] := by
  intro fuel n h
  match fuel with
  | f+1 =>
    rw [natCharsAux]
    split
    · simp
    · simp

theorem digitsVal_append_digit (ds : List Char) (c : Char) :
    digitsVal (ds ++ [c]) = digitsVal ds * 10 + charVal c := by
  unfold digitsVal charVal
  rw [List.foldl_append]
  rfl

theorem digitsVal_natCharsAux : ∀ (fuel n : Nat), n ≤ fuel → digitsVal (natCharsAux fuel n) = n := by
  intro fuel
  induction fuel with
  | zero =>
    intro n h
    have : n = 0 := by omega
    subst this
    rfl
  | succ f ih =>
    intro n h
    rw [natCharsAux]
    split
    · next h10 =>
      have hv := charVal_digitChar n h10
      simpa [digitsVal, charVal] using hv
    · next h10 =>
      push_neg at h10
      have hdiv : n / 10 ≤ f := by
        have := Nat.div_lt_self (show 0 < n by omega) (by norm_num : 1 < 10)
        omega
      rw [digitsVal_append_digit, ih _ hdiv, charVal_digitChar _ (Nat.mod_lt _ (by norm_num))]
      omega

theorem digitsVal_rep_zero : ∀ (k : Nat) (ds : List Char),
    digitsVal (List.replicate k '0' ++ ds) = digitsVal ds := by
  intro k
  induction k with
  | zero => intro ds; rfl
  | succ j ih =>
    intro ds
    rw [List.replicate_succ, List.cons_append]
    show digitsVal ('0' :: (List.replicate j '0' ++ ds)) = _
    unfold digitsVal
    rw [List.foldl_cons]
    show List.foldl _ 0 _ = _
    exact ih ds

theorem dv_foldl_acc : ∀ (b : List Char) (acc : Nat),
    List.foldl (fun a c => a * 10 + (c.toNat - '0'.toNat)) acc b =
      acc * 10 ^ b.length + List.foldl (fun a c => a * 10 + (c.toNat - '0'.toNat)) 0 b := by
  intro b
  induction b with
  | nil => intro acc; simp
  | cons c t ih =>
    intro acc
    rw [List.foldl_cons, List.foldl_cons, ih, ih (0 * 10 + (c.toNat - '0'.toNat))]
    simp [List.length_cons, pow_succ]
    ring

theorem digitsVal_append (a b : List Char) :
    digitsVal (a ++ b) = digitsVal a * 10 ^ b.length + digitsVal b := by
  unfold digitsVal
  rw [List.foldl_append, dv_foldl_acc]

theorem spanDigits_app : ∀ (ds rest : List Char), (∀ c ∈ ds, c.isDigit = true) →
    (headCh rest).isDigit = false → spanDigits (ds ++ rest) = (ds, rest) := by
  intro ds
  induction ds with
  | nil =>
    intro rest _ hr
    cases rest with
    | nil => rfl
    | cons c t =>
      simp only [headCh, List.headD] at hr
      rw [List.nil_append, spanDigits, if_neg (by simp [hr])]
  | cons c t ih =>
    intro rest hds hr
    rw [List.cons_append, spanDigits, if_pos (hds c (by simp)),
      ih rest (fun d hd => hds d (by simp [hd])) hr]

theorem headCh_cons (c : Char) (l : List Char) : headCh (c :: l) = c := rfl

theorem stopOk_parts {rest : List Char} (hstop : stopOk rest = true) :
    (headCh rest).isDigit = false ∧ headCh rest ≠ '.' := by
  unfold stopOk at hstop
  simp only [Bool.and_eq_true, Bool.not_eq_true'] at hstop
  exact ⟨hstop.1, by simpa using hstop.2⟩

theorem padDigits_digits (n e : Nat) : ∀ c ∈ padDigits n e, c.isDigit = true := by
  intro c hc
  rcases List.mem_append.mp hc with hc | hc
  · rw [List.mem_replicate] at hc
    rw [hc.2]
    decide
  · exact natCharsAux_digits _ _ c hc

theorem padDigits_len (n e : Nat) : e + 1 ≤ (padDigits n e).length := by
  have hnn : natChars n ≠ [] := natCharsAux_ne_nil _ _ (Nat.succ_ne_zero n)
  have h1 : 1 ≤ (natChars n).length := List.length_pos.mpr hnn
  unfold padDigits
  rw [List.length_append, List.length_replicate]
  omega

theorem padDigits_val (n e : Nat) : digitsVal (padDigits n e) = n := by
  unfold padDigits
  rw [digitsVal_rep_zero]
  exact digitsVal_natCharsAux _ _ (Nat.le_succ n)

theorem numAbsChars_zero (n : Nat) : numAbsChars n 0 = padDigits n 0 := by
  unfold numAbsChars
  simp [List.take_length]

theorem pNumCore_round (neg : Bool) (n e : Nat) (rest : List Char)
    (hstop : stopOk rest = true) :
    pNumCore neg (numAbsChars n e ++ rest) = some (.num (mkSigned neg n) e, rest) := by
  have hstop2 := stopOk_parts hstop
  have hpd := padDigits_digits n e
  have hplen := padDigits_len n e
  have hdvp := padDigits_val n e
  cases e with
  | zero =>
    rw [numAbsChars_zero]
    unfold pNumCore
    rw [spanDigits_app _ rest hpd hstop2.1]
    have hemp : (padDigits n 0).isEmpty = false := by
      simp only [Bool.eq_false_iff, Ne, List.isEmpty_iff]
      intro h0
      rw [h0] at hplen
      simp at hplen
    dsimp only
    rw [hemp]
    cases rest with
    | nil => simp [hdvp]
    | cons c2 r2 =>
      have hne : c2 ≠ '.' := by simpa [headCh] using hstop2.2
      simp [headCh, hne, hdvp]
  | succ s =>
    have hna : numAbsChars n (s + 1) =
        (padDigits n (s + 1)).take ((padDigits n (s + 1)).length - (s + 1)) ++
          ('.' :: (padDigits n (s + 1)).drop ((padDigits n (s + 1)).length - (s + 1))) := by
      unfold numAbsChars
      simp
    have hiplen : ((padDigits n (s + 1)).take ((padDigits n (s + 1)).length - (s + 1))).length =
        (padDigits n (s + 1)).length - (s + 1) := by
      rw [List.length_take]
      omega
    have hfplen : ((padDigits n (s + 1)).drop ((padDigits n (s + 1)).length - (s + 1))).length =
        s + 1 := by
      rw [List.length_drop]
      omega
    have hipd : ∀ c ∈ (padDigits n (s + 1)).take ((padDigits n (s + 1)).length - (s + 1)),
        c.isDigit = true := fun c hc => hpd c (List.mem_of_mem_take hc)
    have hfpd : ∀ c ∈ (padDigits n (s + 1)).drop ((padDigits n (s + 1)).length - (s + 1)),
        c.isDigit = true := fun c hc => hpd c (List.mem_of_mem_drop hc)
    rw [hna]
    unfold pNumCore
    rw [List.append_assoc, List.cons_append,
      spanDigits_app _ _ hipd (by rw [headCh_cons]; decide)]
    dsimp only
    rw [List.tail_cons, spanDigits_app _ rest hfpd hstop2.1]
    have hemp : ((padDigits n (s + 1)).take ((padDigits n (s + 1)).length - (s + 1))).isEmpty =
        false := by
      simp only [Bool.eq_false_iff, Ne, List.isEmpty_iff]
      intro h0
      have := congrArg List.length h0
      rw [hiplen] at this
      simp at this
      omega
    have hfemp : ((padDigits n (s + 1)).drop ((padDigits n (s + 1)).length - (s + 1))).isEmpty =
        false := by
      simp only [Bool.eq_false_iff, Ne, List.isEmpty_iff]
      intro h0
      have := congrArg List.length h0
      rw [hfplen] at this
      simp at this
    have hval : digitsVal ((padDigits n (s + 1)).take ((padDigits n (s + 1)).length - (s + 1))) *
          10 ^ ((padDigits n (s + 1)).drop ((padDigits n (s + 1)).length - (s + 1))).length +
          digitsVal ((padDigits n (s + 1)).drop ((padDigits n (s + 1)).length - (s + 1))) = n := by
      rw [← digitsVal_append, List.take_append_drop, hdvp]
    rw [hemp]
    rw [hfplen] at hval
    simp only [headCh_cons, hfemp]
    simp [hval, hfplen]

theorem mkSigned_neg {m : Int} (h : m < 0) : mkSigned true m.natAbs = m := by
  show -(↑m.natAbs : Int) = m
  omega

theorem mkSigned_nonneg {m : Int} (h : ¬ m < 0) : mkSigned false m.natAbs = m := by
  show (↑m.natAbs : Int) = m
  omega

theorem numAbsChars_head (n e : Nat) :
    numAbsChars n e ≠ [] ∧ ((numAbsChars n e).headD 'x').isDigit = true := by
  have hpd := padDigits_digits n e
  have hplen := padDigits_len n e
  have hiplen : ((padDigits n e).take ((padDigits n e).length - e)).length =
      (padDigits n e).length - e := by
    rw [List.length_take]
    omega
  rcases hip : (padDigits n e).take ((padDigits n e).length - e) with _ | ⟨a, t⟩
  · rw [hip] at hiplen
    simp at hiplen
    omega
  · have ha : a.isDigit = true := hpd a (List.mem_of_mem_take (hip ▸ List.mem_cons_self a t))
    unfold numAbsChars
    rw [hip]
    exact ⟨by simp, by simp [ha]⟩

theorem numHead_props {c : Char} (h : c = '-' ∨ c.isDigit = true) :
    wsChar c = false ∧ c ≠ 'n' ∧ c ≠ 't' ∧ c ≠ 'f' ∧ c ≠ '"' ∧ c ≠ '[' ∧ c ≠ '{' := by
  rcases h with rfl | hd
  · exact ⟨by decide, by decide, by decide, by decide, by decide, by decide, by decide⟩
  · exact ⟨digit_not_ws hd, digit_ne hd (by decide), digit_ne hd (by decide),
      digit_ne hd (by decide), digit_ne hd (by decide), digit_ne hd (by decide),
      digit_ne hd (by decide)⟩

theorem numChars_head (m : Int) (e : Nat) :
    numChars m e ≠ [] ∧
      ((numChars m e).headD 'x' = '-' ∨ ((numChars m e).headD 'x').isDigit = true) := by
  unfold numChars
  by_cases hm : m < 0
  · rw [if_pos hm]
    exact ⟨by simp, Or.inl rfl⟩
  · rw [if_neg hm, List.nil_append]
    obtain ⟨hne, hd⟩ := numAbsChars_head m.natAbs e
    exact ⟨hne, Or.inr hd⟩

theorem pNum_round (m : Int) (e : Nat) (rest : List Char) (hstop : stopOk rest = true) :
    pNum (numChars m e ++ rest) = some (.num m e, rest) := by
  by_cases hm : m < 0
  · unfold numChars
    rw [if_pos hm]
    show pNum ('-' :: (numAbsChars m.natAbs e ++ rest)) = _
    show (if '-' = '-' then pNumCore true (numAbsChars m.natAbs e ++ rest)
      else pNumCore false ('-' :: (numAbsChars m.natAbs e ++ rest))) = some (.num m e, rest)
    rw [if_pos rfl, pNumCore_round true m.natAbs e rest hstop, mkSigned_neg hm]
  · unfold numChars
    rw [if_neg hm, List.nil_append]
    rcases hab : numAbsChars m.natAbs e with _ | ⟨a, t⟩
    · exact absurd hab (numAbsChars_head m.natAbs e).1
    · have hd : a.isDigit = true := by
        have := (numAbsChars_head m.natAbs e).2
        rw [hab] at this
        simpa using this
      show (if a = '-' then pNumCore true (t ++ rest)
        else pNumCore false (a :: (t ++ rest))) = some (.num m e, rest)
      rw [if_neg (digit_ne hd (by decide)),
        show a :: (t ++ rest) = numAbsChars m.natAbs e ++ rest from by rw [hab, List.cons_append],
        pNumCore_round false m.natAbs e rest hstop, mkSigned_nonneg hm]

theorem hexVal_hexChar : ∀ d < 16, hexVal (hexChar d) = d := by decide

theorem isHex_hexChar : ∀ d < 16, isHex (hexChar d) = true := by decide

theorem pStrBody_raw {c : Char} (h1 : c ≠ '"') (h2 : c ≠ '\\') (r : List Char) :
    pStrBody (c :: r) = consRes c (pStrBody r) := by
  rw [pStrBody.eq_def]
  show (if c = '"' then some ([], r)
        else if c = '\\' then
          match r with
          | [] => none
          | e :: r2 =>
            if e = 'u' then
              match r2 with
              | h1 :: h2 :: h3 :: h4 :: r3 =>
                if isHex h1 && isHex h2 && isHex h3 && isHex h4 then
                  consRes (Char.ofNat
                    (((hexVal h1 * 16 + hexVal h2) * 16 + hexVal h3) * 16 + hexVal h4))
                    (pStrBody r3)
                else none
              | _ => none
            else
              match escUn e with
              | some c2 => consRes c2 (pStrBody r2)
              | none => none
        else consRes c (pStrBody r)) = consRes c (pStrBody r)
  rw [if_neg h1, if_neg h2]

theorem pStrBody_round : ∀ (s rest : List Char),
    pStrBody (escList s ++ ('"' :: rest)) = some (s, rest) := by
  intro s
  induction s with
  | nil =>
    intro rest
    show pStrBody ('"' :: rest) = _
    rw [pStrBody.eq_def]
    rfl
  | cons c cs ih =>
    intro rest
    show pStrBody ((escChar c ++ escList cs) ++ ('"' :: rest)) = _
    rw [List.append_assoc]
    by_cases h1 : c = '"'
    · subst h1
      rw [show escChar '"' = ['\\', '"'] from rfl, List.cons_append, List.cons_append,
        pStrBody.eq_def]
      show consRes '"' (pStrBody (escList cs ++ ('"' :: rest))) = some ('"' :: cs, rest)
      rw [ih rest]
      rfl
    · by_cases h2 : c = '\\'
      · subst h2
        rw [show escChar '\\' = ['\\', '\\'] from rfl, List.cons_append, List.cons_append,
          pStrBody.eq_def]
        show consRes '\\' (pStrBody (escList cs ++ ('"' :: rest))) = some ('\\' :: cs, rest)
        rw [ih rest]
        rfl
      · by_cases h3 : c = '\n'
        · subst h3
          rw [show escChar '\n' = ['\\', 'n'] from rfl, List.cons_append, List.cons_append,
            pStrBody.eq_def]
          show consRes '\n' (pStrBody (escList cs ++ ('"' :: rest))) = some ('\n' :: cs, rest)
          rw [ih rest]
          rfl
        · by_cases h4 : c = '\r'
          · subst h4
            rw [show escChar '\r' = ['\\', 'r'] from rfl, List.cons_append, List.cons_append,
              pStrBody.eq_def]
            show consRes '\r' (pStrBody (escList cs ++ ('"' :: rest))) = some ('\r' :: cs, rest)
            rw [ih rest]
            rfl
          · by_cases h5 : c = '\t'
            · subst h5
              rw [show escChar '\t' = ['\\', 't'] from rfl, List.cons_append, List.cons_append,
                pStrBody.eq_def]
              show consRes '\t' (pStrBody (escList cs ++ ('"' :: rest))) = some ('\t' :: cs, rest)
              rw [ih rest]
              rfl
            · by_cases h6 : c.toNat = 8
              · have hc := Char.ofNat_toNat c
                rw [h6] at hc
                subst hc
                rw [show escChar (Char.ofNat 8) = ['\\', 'b'] from rfl, List.cons_append,
                  List.cons_append, pStrBody.eq_def]
                show consRes (Char.ofNat 8) (pStrBody (escList cs ++ ('"' :: rest))) =
                  some (Char.ofNat 8 :: cs, rest)
                rw [ih rest]
                rfl
              · by_cases h7 : c.toNat = 12
                · have hc := Char.ofNat_toNat c
                  rw [h7] at hc
                  subst hc
                  rw [show escChar (Char.ofNat 12) = ['\\', 'f'] from rfl, List.cons_append,
                    List.cons_append, pStrBody.eq_def]
                  show consRes (Char.ofNat 12) (pStrBody (escList cs ++ ('"' :: rest))) =
                    some (Char.ofNat 12 :: cs, rest)
                  rw [ih rest]
                  rfl
                · by_cases h8 : c.toNat < 32
                  · rw [show escChar c =
                        ['\\', 'u', '0', '0', hexChar (c.toNat / 16), hexChar (c.toNat % 16)] from by
                      unfold escChar
                      rw [if_neg h1, if_neg h2, if_neg h3, if_neg h4, if_neg h5, if_neg h6,
                        if_neg h7, if_pos h8]]
                    rw [List.cons_append, List.cons_append, List.cons_append, List.cons_append,
                      List.cons_append, List.cons_append, pStrBody.eq_def]
                    have hHex : (isHex '0' && isHex '0' && isHex (hexChar (c.toNat / 16)) &&
                        isHex (hexChar (c.toNat % 16))) = true := by
                      rw [isHex_hexChar _ (by omega), isHex_hexChar _ (Nat.mod_lt _ (by norm_num))]
                      decide
                    show (if (isHex '0' && isHex '0' && isHex (hexChar (c.toNat / 16)) &&
                          isHex (hexChar (c.toNat % 16))) = true then
                        consRes (Char.ofNat
                          (((hexVal '0' * 16 + hexVal '0') * 16 + hexVal (hexChar (c.toNat / 16))) * 16 +
                            hexVal (hexChar (c.toNat % 16))))
                          (pStrBody (escList cs ++ ('"' :: rest)))
                      else none) = some (c :: cs, rest)
                    have hv : ((hexVal '0' * 16 + hexVal '0') * 16 +
                        hexVal (hexChar (c.toNat / 16))) * 16 + hexVal (hexChar (c.toNat % 16)) =
                        c.toNat := by
                      rw [hexVal_hexChar _ (by omega), hexVal_hexChar _ (Nat.mod_lt _ (by norm_num)),
                        show hexVal '0' = 0 from rfl]
                      omega
                    rw [if_pos hHex, hv, Char.ofNat_toNat, ih rest]
                    rfl
                  · rw [show escChar c = [c] from by
                        unfold escChar
                        rw [if_neg h1, if_neg h2, if_neg h3, if_neg h4, if_neg h5, if_neg h6,
                          if_neg h7, if_neg h8]]
                    rw [List.cons_append, List.nil_append, pStrBody_raw h1 h2, ih rest]
                    rfl

theorem stop_of_ws_cons {w2 : List Char} (hw2 : ∀ c ∈ w2, wsChar c = true) {c0 : Char}
    (h0 : c0.isDigit = false) (h0p : c0 ≠ '.') (rest : List Char) :
    stopOk (w2 ++ (c0 :: rest)) = true := by
  cases w2 with
  | nil =>
    unfold stopOk headCh
    simp [h0, h0p]
  | cons a t =>
    have ha := ws_not_digit_dot (hw2 a (by simp))
    unfold stopOk headCh
    simp [ha.1, ha.2]

theorem String_mk_data (s : String) : String.mk s.data = s := rfl

theorem dinsert_not_mem {k : String} {ms : List (String × Json)}
    (h : k ∉ ms.map Prod.fst) (v : Json) : dinsert k v ms = (k, v) :: ms := by
  unfold dinsert
  rw [if_neg]
  intro hc
  rw [List.any_eq_true] at hc
  obtain ⟨p, hp, he⟩ := hc
  rw [beq_iff_eq] at he
  exact h (List.mem_map.mpr ⟨p, hp, he⟩)

theorem ser_ne_nil (v : Json) (L : Nat) : ser v L ≠ [] := by
  rcases v with _ | b | ⟨m, e⟩ | s | (_ | ⟨x, xs⟩) | (_ | ⟨p, ms⟩)
  · simp [ser]
  · cases b <;> simp [ser]
  · exact (numChars_head m e).1
  · simp [ser, serStr]
  · simp [ser]
  · simp [ser]
  · simp [ser]
  · simp [ser]

theorem ser_len_pos (v : Json) (L : Nat) : 1 ≤ (ser v L).length :=
  List.length_pos.mpr (ser_ne_nil v L)

theorem ser_head (v : Json) (L : Nat) :
    wsChar (headCh (ser v L)) = false ∧ headCh (ser v L) ≠ ']' ∧ headCh (ser v L) ≠ '}' := by
  rcases v with _ | b | ⟨m, e⟩ | s | (_ | ⟨x, xs⟩) | (_ | ⟨p, ms⟩)
  · simp only [ser]
    exact ⟨by decide, by decide, by decide⟩
  · cases b <;> simp only [ser] <;> exact ⟨by decide, by decide, by decide⟩
  · simp only [ser]
    rcases (numChars_head m e).2 with hd | hd
    · rw [show headCh (numChars m e) = (numChars m e).headD 'x' from rfl, hd]
      exact ⟨by decide, by decide, by decide⟩
    · rw [show headCh (numChars m e) = (numChars m e).headD 'x' from rfl]
      exact ⟨digit_not_ws hd, digit_ne hd (by decide), digit_ne hd (by decide)⟩
  · simp only [ser, serStr]
    rw [headCh_cons]
    exact ⟨by decide, by decide, by decide⟩
  · simp only [ser]
    exact ⟨by decide, by decide, by decide⟩
  · simp only [ser]
    rw [headCh_cons]
    exact ⟨by decide, by decide, by decide⟩
  · simp only [ser]
    exact ⟨by decide, by decide, by decide⟩
  · simp only [ser]
    rw [headCh_cons]
    exact ⟨by decide, by decide, by decide⟩

theorem serElems_cons_decomp (x : Json) (xs : List Json) (L : Nat) :
    ∃ tl, serElems (x :: xs) L = ser x L ++ tl := by
  cases xs with
  | nil => exact ⟨[], by rw [show serElems [x] L = ser x L from rfl, List.append_nil]⟩
  | cons y ys => exact ⟨_, rfl⟩

theorem serMembers_head (p : String × Json) (ms : List (String × Json)) (L : Nat) :
    ∃ tl, serMembers (p :: ms) L = '"' :: tl := by
  rcases p with ⟨k, v⟩
  cases ms with
  | nil => exact ⟨_, rfl⟩
  | cons q ms2 => exact ⟨_, rfl⟩

theorem pAux_val_cons (f : Nat) (cs : List Char) (c : Char) (r : List Char)
    (hs : skipWs cs = c :: r) :
    pAux (f + 1) .val cs = pValBody f c r := by
  simp only [pAux]
  split
  · next heq =>
    rw [hs] at heq
    cases heq
  · next c2 r2 heq =>
    rw [hs] at heq
    injection heq with e1 e2
    subst e1
    subst e2
    rfl

theorem pArrBody_elems (f : Nat) (r : List Char) (c2 : Char) (r2 : List Char)
    (hsk : skipWs r = c2 :: r2) (hne : c2 ≠ ']') :
    pArrBody f r = pAux f .elems r := by
  unfold pArrBody
  split
  · next heq =>
    rw [hsk] at heq
    cases heq
  · next c3 r3 heq =>
    rw [hsk] at heq
    injection heq with e1 e2
    subst e1
    subst e2
    rw [if_neg hne]

theorem pObjBody_members (f : Nat) (r : List Char) (c2 : Char) (r2 : List Char)
    (hsk : skipWs r = c2 :: r2) (hne : c2 ≠ '}') :
    pObjBody f r = pAux f .members r := by
  unfold pObjBody
  split
  · next heq =>
    rw [hsk] at heq
    cases heq
  · next c3 r3 heq =>
    rw [hsk] at heq
    injection heq with e1 e2
    subst e1
    subst e2
    rw [if_neg hne]

theorem pAux_elems_round : ∀ (l : List Json) (L : Nat),
    l ≠ [] →
    (∀ x ∈ l, ∀ (L2 : Nat) (w rest : List Char) (fuel : Nat),
      (∀ c ∈ w, wsChar c = true) → stopOk rest = true → (ser x L2).length ≤ fuel →
      pAux fuel .val (w ++ (ser x L2 ++ rest)) = some (x, rest)) →
    ∀ (w w2 rest : List Char) (fuel : Nat),
      (∀ c ∈ w, wsChar c = true) → (∀ c ∈ w2, wsChar c = true) →
      (serElems l L).length + 1 ≤ fuel →
      pAux fuel .elems (w ++ (serElems l L ++ (w2 ++ (']' :: rest)))) = some (.arr l, rest) := by
  intro l
  induction l with
  | nil =>
    intro L h
    exact absurd rfl h
  | cons x xs ih =>
    intro L _ hall w w2 rest fuel hw hw2 hfuel
    obtain ⟨f, rfl⟩ : ∃ f, fuel = f + 1 := ⟨fuel - 1, by omega⟩
    simp only [pAux]
    cases xs with
    | nil =>
      have hlen : (serElems [x] L).length = (ser x L).length := rfl
      have hx := hall x (by simp) L w (w2 ++ (']' :: rest)) f hw
        (stop_of_ws_cons hw2 (by decide) (by decide) rest) (by omega)
      rw [show serElems [x] L = ser x L from rfl, hx]
      simp only []
      rw [skipWs_app hw2, skipWs_cons (by decide)]
      simp
    | cons y ys =>
      have hdec : serElems (x :: y :: ys) L =
          ser x L ++ (',' :: '\n' :: (pad L ++ serElems (y :: ys) L)) := rfl
      have hlen : (serElems (x :: y :: ys) L).length =
          (ser x L).length + 2 + ((pad L).length + (serElems (y :: ys) L).length) := by
        rw [hdec]
        simp [List.length_append]
        omega
      have hshape : serElems (x :: y :: ys) L ++ (w2 ++ (']' :: rest)) =
          ser x L ++ (',' :: '\n' :: (pad L ++ (serElems (y :: ys) L ++ (w2 ++ (']' :: rest))))) := by
        rw [hdec]
        simp [List.append_assoc]
      rw [hshape]
      have h1 := ser_len_pos x L
      have hx := hall x (by simp) L w
        (',' :: '\n' :: (pad L ++ (serElems (y :: ys) L ++ (w2 ++ (']' :: rest))))) f hw rfl
        (by omega)
      rw [hx]
      simp only []
      rw [skipWs_cons (by decide)]
      simp only []
      rw [if_pos trivial]
      have hih := ih L (by simp) (fun z hz => hall z (by simp [hz]))
        ('\n' :: pad L) w2 rest f (nlPad_ws L) hw2 (by omega)
      rw [List.cons_append] at hih
      rw [hih]

theorem pAux_members_round : ∀ (l : List (String × Json)) (L : Nat),
    l ≠ [] →
    (∀ p ∈ l, ∀ (L2 : Nat) (w rest : List Char) (fuel : Nat),
      (∀ c ∈ w, wsChar c = true) → stopOk rest = true → (ser p.2 L2).length ≤ fuel →
      pAux fuel .val (w ++ (ser p.2 L2 ++ rest)) = some (p.2, rest)) →
    (l.map Prod.fst).Nodup →
    ∀ (w w2 rest : List Char) (fuel : Nat),
      (∀ c ∈ w, wsChar c = true) → (∀ c ∈ w2, wsChar c = true) →
      (serMembers l L).length + 1 ≤ fuel →
      pAux fuel .members (w ++ (serMembers l L ++ (w2 ++ ('}' :: rest)))) =
        some (.obj l, rest) := by
  intro l
  induction l with
  | nil =>
    intro L h
    exact absurd rfl h
  | cons p ms ih =>
    rcases p with ⟨k, v⟩
    intro L _ hall hnd w w2 rest fuel hw hw2 hfuel
    obtain ⟨f, rfl⟩ : ∃ f, fuel = f + 1 := ⟨fuel - 1, by omega⟩
    simp only [pAux]
    cases ms with
    | nil =>
      have hdec : serMembers [(k, v)] L = serStr k ++ (':' :: ' ' :: ser v L) := rfl
      have hlen : (serMembers [(k, v)] L).length =
          (2 + (escList k.data).length) + (2 + (ser v L).length) := by
        rw [hdec, serStr]
        simp [List.length_append]
        omega
      have hshape : serMembers [(k, v)] L ++ (w2 ++ ('}' :: rest)) =
          '"' :: (escList k.data ++
            ('"' :: (':' :: (' ' :: (ser v L ++ (w2 ++ ('}' :: rest))))))) := by
        rw [hdec, serStr]
        simp [List.append_assoc]
      rw [hshape, skipWs_app hw, skipWs_cons (by decide)]
      simp only []
      rw [if_pos trivial, pStrBody_round]
      simp only []
      rw [skipWs_cons (by decide)]
      simp only []
      rw [if_pos trivial]
      have hval := hall (k, v) (by simp) L [' '] (w2 ++ ('}' :: rest)) f (by decide)
        (stop_of_ws_cons hw2 (by decide) (by decide) rest)
        (by show (ser v L).length ≤ f; omega)
      rw [List.singleton_append] at hval
      rw [hval]
      simp only []
      rw [skipWs_app hw2, skipWs_cons (by decide)]
      simp only []
      rw [if_neg (by decide), if_pos trivial]
    | cons m ms2 =>
      have hdec : serMembers ((k, v) :: m :: ms2) L =
          serStr k ++ (':' :: ' ' :: ser v L) ++
            (',' :: '\n' :: (pad L ++ serMembers (m :: ms2) L)) := rfl
      have hlen : (serMembers ((k, v) :: m :: ms2) L).length =
          (2 + (escList k.data).length) + (2 + (ser v L).length) +
            (2 + ((pad L).length + (serMembers (m :: ms2) L).length)) := by
        rw [hdec, serStr]
        simp [List.length_append]
        omega
      have hshape : serMembers ((k, v) :: m :: ms2) L ++ (w2 ++ ('}' :: rest)) =
          '"' :: (escList k.data ++
            ('"' :: (':' :: (' ' :: (ser v L ++
              (',' :: '\n' :: (pad L ++ (serMembers (m :: ms2) L ++ (w2 ++ ('}' :: rest)))))))))) := by
        rw [hdec, serStr]
        simp [List.append_assoc]
      rw [hshape, skipWs_app hw, skipWs_cons (by decide)]
      simp only []
      rw [if_pos trivial, pStrBody_round]
      simp only []
      rw [skipWs_cons (by decide)]
      simp only []
      rw [if_pos trivial]
      have hval := hall (k, v) (by simp) L [' ']
        (',' :: '\n' :: (pad L ++ (serMembers (m :: ms2) L ++ (w2 ++ ('}' :: rest))))) f
        (by decide) rfl (by show (ser v L).length ≤ f; omega)
      rw [List.singleton_append] at hval
      rw [hval]
      simp only []
      rw [skipWs_cons (by decide)]
      simp only []
      rw [if_pos trivial]
      rw [List.map_cons, List.nodup_cons] at hnd
      have hih := ih L (by simp) (fun q hq => hall q (by simp [hq])) hnd.2
        ('\n' :: pad L) w2 rest f (nlPad_ws L) hw2 (by omega)
      rw [List.cons_append] at hih
      rw [hih]
      simp only []
      rw [String_mk_data, dinsert_not_mem (by simpa using hnd.1) v]

theorem pAux_val_round : ∀ (v : Json), JsonWF v →
    ∀ (L : Nat) (w rest : List Char) (fuel : Nat),
      (∀ c ∈ w, wsChar c = true) → stopOk rest = true →
      (ser v L).length ≤ fuel →
      pAux fuel .val (w ++ (ser v L ++ rest)) = some (v, rest) := by
  intro v hwf
  induction hwf with
  | null =>
    intro L w rest fuel hw hstop hfuel
    obtain ⟨f, rfl⟩ : ∃ f, fuel = f + 1 := ⟨fuel - 1, by have := ser_len_pos Json.null L; omega⟩
    have hs : skipWs (w ++ (ser Json.null L ++ rest)) = 'n' :: ('u' :: 'l' :: 'l' :: rest) := by
      rw [skipWs_app hw,
        show ser Json.null L ++ rest = 'n' :: ('u' :: 'l' :: 'l' :: rest) from by simp [ser],
        skipWs_cons (by decide)]
    rw [pAux_val_cons f _ 'n' _ hs]
    rfl
  | bool b =>
    intro L w rest fuel hw hstop hfuel
    obtain ⟨f, rfl⟩ : ∃ f, fuel = f + 1 := ⟨fuel - 1, by have := ser_len_pos (Json.bool b) L; omega⟩
    cases b with
    | true =>
      have hs : skipWs (w ++ (ser (Json.bool true) L ++ rest)) =
          't' :: ('r' :: 'u' :: 'e' :: rest) := by
        rw [skipWs_app hw,
          show ser (Json.bool true) L ++ rest = 't' :: ('r' :: 'u' :: 'e' :: rest) from by
            simp [ser],
          skipWs_cons (by decide)]
      rw [pAux_val_cons f _ 't' _ hs]
      rfl
    | false =>
      have hs : skipWs (w ++ (ser (Json.bool false) L ++ rest)) =
          'f' :: ('a' :: 'l' :: 's' :: 'e' :: rest) := by
        rw [skipWs_app hw,
          show ser (Json.bool false) L ++ rest = 'f' :: ('a' :: 'l' :: 's' :: 'e' :: rest) from by
            simp [ser],
          skipWs_cons (by decide)]
      rw [pAux_val_cons f _ 'f' _ hs]
      rfl
  | num m e =>
    intro L w rest fuel hw hstop hfuel
    obtain ⟨f, rfl⟩ : ∃ f, fuel = f + 1 := ⟨fuel - 1, by have := ser_len_pos (Json.num m e) L; omega⟩
    rcases hnc : numChars m e with _ | ⟨c0, tcs⟩
    · exact absurd hnc (numChars_head m e).1
    · have hcd : c0 = '-' ∨ c0.isDigit = true := by
        have := (numChars_head m e).2
        rw [hnc] at this
        simpa using this
      have hp := numHead_props hcd
      have hs : skipWs (w ++ (ser (Json.num m e) L ++ rest)) = c0 :: (tcs ++ rest) := by
        rw [skipWs_app hw,
          show ser (Json.num m e) L ++ rest = numChars m e ++ rest from rfl, hnc,
          List.cons_append, skipWs_cons hp.1]
      rw [pAux_val_cons f _ c0 _ hs]
      unfold pValBody
      rw [if_neg hp.2.1, if_neg hp.2.2.1, if_neg hp.2.2.2.1, if_neg hp.2.2.2.2.1,
        if_neg hp.2.2.2.2.2.1, if_neg hp.2.2.2.2.2.2,
        show c0 :: (tcs ++ rest) = numChars m e ++ rest from by rw [hnc, List.cons_append],
        pNum_round m e rest hstop]
  | str s =>
    intro L w rest fuel hw hstop hfuel
    obtain ⟨f, rfl⟩ : ∃ f, fuel = f + 1 := ⟨fuel - 1, by have := ser_len_pos (Json.str s) L; omega⟩
    have hs : skipWs (w ++ (ser (Json.str s) L ++ rest)) =
        '"' :: (escList s.data ++ ('"' :: rest)) := by
      rw [skipWs_app hw,
        show ser (Json.str s) L ++ rest = '"' :: (escList s.data ++ ('"' :: rest)) from by
          simp [ser, serStr, List.append_assoc],
        skipWs_cons (by decide)]
    rw [pAux_val_cons f _ '"' _ hs]
    show pStrRes (escList s.data ++ ('"' :: rest)) = some (Json.str s, rest)
    unfold pStrRes
    rw [pStrBody_round]
  | arr l hl ih =>
    intro L w rest fuel hw hstop hfuel
    obtain ⟨f, rfl⟩ : ∃ f, fuel = f + 1 := ⟨fuel - 1, by have := ser_len_pos (Json.arr l) L; omega⟩
    cases l with
    | nil =>
      have hs : skipWs (w ++ (ser (Json.arr []) L ++ rest)) = '[' :: (']' :: rest) := by
        rw [skipWs_app hw,
          show ser (Json.arr []) L ++ rest = '[' :: (']' :: rest) from by simp [ser],
          skipWs_cons (by decide)]
      rw [pAux_val_cons f _ '[' _ hs]
      show pArrBody f (']' :: rest) = some (Json.arr [], rest)
      unfold pArrBody
      rw [skipWs_cons (by decide)]
      simp
    | cons x xs =>
      have hs : skipWs (w ++ (ser (Json.arr (x :: xs)) L ++ rest)) =
          '[' :: ('\n' :: (pad (L + 1) ++
            (serElems (x :: xs) (L + 1) ++ ('\n' :: (pad L ++ (']' :: rest)))))) := by
        rw [skipWs_app hw,
          show ser (Json.arr (x :: xs)) L ++ rest =
            '[' :: ('\n' :: (pad (L + 1) ++
              (serElems (x :: xs) (L + 1) ++ ('\n' :: (pad L ++ (']' :: rest)))))) from by
            simp [ser, List.append_assoc],
          skipWs_cons (by decide)]
      obtain ⟨tl, htl⟩ := serElems_cons_decomp x xs (L + 1)
      rcases hsx : ser x (L + 1) with _ | ⟨cx, tx⟩
      · exact absurd hsx (ser_ne_nil x (L + 1))
      · have hhead := ser_head x (L + 1)
        rw [hsx, headCh_cons] at hhead
        have hsk : skipWs ('\n' :: (pad (L + 1) ++
            (serElems (x :: xs) (L + 1) ++ ('\n' :: (pad L ++ (']' :: rest)))))) =
            cx :: (tx ++ (tl ++ ('\n' :: (pad L ++ (']' :: rest))))) := by
          rw [show ('\n' :: (pad (L + 1) ++
              (serElems (x :: xs) (L + 1) ++ ('\n' :: (pad L ++ (']' :: rest)))))) =
            ('\n' :: pad (L + 1)) ++
              (serElems (x :: xs) (L + 1) ++ ('\n' :: (pad L ++ (']' :: rest)))) from by
            rw [List.cons_append]]
          rw [skipWs_app (nlPad_ws (L + 1)), htl, List.append_assoc, hsx, List.cons_append,
            skipWs_cons hhead.1]
        have hserlen : (ser (Json.arr (x :: xs)) L).length =
            (serElems (x :: xs) (L + 1)).length + ((pad (L + 1)).length + (pad L).length + 4) := by
          rw [show ser (Json.arr (x :: xs)) L =
            '[' :: '\n' :: (pad (L + 1) ++
              (serElems (x :: xs) (L + 1) ++ ('\n' :: (pad L ++ [']'])))) from rfl]
          simp [List.length_append]
          omega
        rw [pAux_val_cons f _ '[' _ hs]
        show pArrBody f ('\n' :: (pad (L + 1) ++
          (serElems (x :: xs) (L + 1) ++ ('\n' :: (pad L ++ (']' :: rest)))))) =
          some (Json.arr (x :: xs), rest)
        rw [pArrBody_elems f _ cx _ hsk hhead.2.1]
        have hel := pAux_elems_round (x :: xs) (L + 1) (by simp) (fun z hz => ih z hz)
          ('\n' :: pad (L + 1)) ('\n' :: pad L) rest f (nlPad_ws (L + 1)) (nlPad_ws L)
          (by omega)
        rw [List.cons_append, List.cons_append] at hel
        exact hel
  | obj ms hm hnd ih =>
    intro L w rest fuel hw hstop hfuel
    obtain ⟨f, rfl⟩ : ∃ f, fuel = f + 1 := ⟨fuel - 1, by have := ser_len_pos (Json.obj ms) L; omega⟩
    cases ms with
    | nil =>
      have hs : skipWs (w ++ (ser (Json.obj []) L ++ rest)) = '{' :: ('}' :: rest) := by
        rw [skipWs_app hw,
          show ser (Json.obj []) L ++ rest = '{' :: ('}' :: rest) from by simp [ser],
          skipWs_cons (by decide)]
      rw [pAux_val_cons f _ '{' _ hs]
      show pObjBody f ('}' :: rest) = some (Json.obj [], rest)
      unfold pObjBody
      rw [skipWs_cons (by decide)]
      simp
    | cons p ms2 =>
      have hs : skipWs (w ++ (ser (Json.obj (p :: ms2)) L ++ rest)) =
          '{' :: ('\n' :: (pad (L + 1) ++
            (serMembers (p :: ms2) (L + 1) ++ ('\n' :: (pad L ++ ('}' :: rest)))))) := by
        rw [skipWs_app hw,
          show ser (Json.obj (p :: ms2)) L ++ rest =
            '{' :: ('\n' :: (pad (L + 1) ++
              (serMembers (p :: ms2) (L + 1) ++ ('\n' :: (pad L ++ ('}' :: rest)))))) from by
            simp [ser, List.append_assoc],
          skipWs_cons (by decide)]
      obtain ⟨tl, htl⟩ := serMembers_head p ms2 (L + 1)
      have hsk : skipWs ('\n' :: (pad (L + 1) ++
          (serMembers (p :: ms2) (L + 1) ++ ('\n' :: (pad L ++ ('}' :: rest)))))) =
          '"' :: (tl ++ ('\n' :: (pad L ++ ('}' :: rest)))) := by
        rw [show ('\n' :: (pad (L + 1) ++
            (serMembers (p :: ms2) (L + 1) ++ ('\n' :: (pad L ++ ('}' :: rest)))))) =
          ('\n' :: pad (L + 1)) ++
            (serMembers (p :: ms2) (L + 1) ++ ('\n' :: (pad L ++ ('}' :: rest)))) from by
          rw [List.cons_append]]
        rw [skipWs_app (nlPad_ws (L + 1)), htl, List.cons_append, skipWs_cons (by decide)]
      have hserlen : (ser (Json.obj (p :: ms2)) L).length =
          (serMembers (p :: ms2) (L + 1)).length + ((pad (L + 1)).length + (pad L).length + 4) := by
        rw [show ser (Json.obj (p :: ms2)) L =
          '{' :: '\n' :: (pad (L + 1) ++
            (serMembers (p :: ms2) (L + 1) ++ ('\n' :: (pad L ++ ['}'])))) from rfl]
        simp [List.length_append]
        omega
      rw [pAux_val_cons f _ '{' _ hs]
      show pObjBody f ('\n' :: (pad (L + 1) ++
        (serMembers (p :: ms2) (L + 1) ++ ('\n' :: (pad L ++ ('}' :: rest)))))) =
        some (Json.obj (p :: ms2), rest)
      rw [pObjBody_members f _ '"' _ hsk (by decide)]
      have hmem := pAux_members_round (p :: ms2) (L + 1) (by simp) (fun q hq => ih q hq) hnd
        ('\n' :: pad (L + 1)) ('\n' :: pad L) rest f (nlPad_ws (L + 1)) (nlPad_ws L)
        (by omega)
      rw [List.cons_append, List.cons_append] at hmem
      exact hmem

/-- C10: persistence round-trip identity of the document store. `load_db` of
a missing file yields the empty snapshot, and for every JSON value whose
objects carry duplicate-free keys (every value a Python snapshot dict can
denote), `json.loads` applied to `json.dumps(v, indent=2, ensure_ascii=False)`
— the exact `save_db` / `load_db` pair — returns the value unchanged. -/
theorem c10_roundtrip :
    load_db none = some emptyDbJson ∧
    ∀ v : Json, JsonWF v → load_db (some (save_db v)) = some v := by
  refine ⟨rfl, ?_⟩
  intro v h
  have hrt := pAux_val_round v h 0 [] [] ((ser v 0).length + 1) (by simp) rfl (by omega)
  rw [List.nil_append, List.append_nil] at hrt
  simp only [load_db]
  rw [show (save_db v).data = ser v 0 from rfl, hrt]
  simp only []
  rw [show skipWs ([] : List Char) = [] from rfl, if_pos rfl]

/-- Witness for C10 at the concrete snapshot. -/
theorem c10_witness : load_db (some (save_db c10Snapshot)) = some c10Snapshot :=
  c10_roundtrip.2 c10Snapshot (by
    refine JsonWF.obj _ ?_ (by decide)
    intro p hp
    simp only [List.mem_cons, List.not_mem_nil, or_false] at hp
    rcases hp with rfl | rfl | rfl | rfl
    · refine JsonWF.arr _ ?_
      intro q hq
      simp only [List.mem_singleton] at hq
      subst hq
      refine JsonWF.obj _ ?_ (by decide)
      intro r hr
      simp only [List.mem_cons, List.not_mem_nil, or_false] at hr
      rcases hr with rfl | rfl | rfl | rfl | rfl | rfl | rfl | rfl | rfl <;> constructor
    · exact JsonWF.arr _ (by intro q hq; simp at hq)
    · exact JsonWF.arr _ (by intro q hq; simp at hq)
    · exact JsonWF.arr _ (by intro q hq; simp at hq))

end Registry
